import Mathlib

/-!
PhotoPrism indexer: reconciliation of media files with the catalog.

A shallow embedding of `internal/photoprism/indexer.go`.

* The SQL store behind `gorm.DB` is a record of tables; a table is the list of
  its rows in primary-key order.  `First` is the first row of the list that
  satisfies the condition, `Create` appends a row under a fresh key (one more
  than the largest key in the table, so never the blank key 0), `Save` of a
  loaded row rewrites the rows carrying its key.  SQL `=` on strings is exact
  equality.  Store errors other than "record not found" are not modelled.
* A `MediaFile` is the record of what its getters return for one file on disk.
* `time.Time` is an instant in nanoseconds together with its calendar year,
  the only calendar component the indexer reads.  One clock reading serves a
  whole call of `IndexMediaFile`, for the staleness test and for the
  timestamps the store writes.
* Float values are carried as their IEEE bit patterns.
* Log output is not modelled.
-/

namespace Photoprism

/-! ## Go library values -/

/-- A `time.Time`: nanoseconds since the epoch and the calendar year. -/
structure Time where
  UnixNano : Int
  Year : Nat
deriving DecidableEq, Repr

/-- Largest `time.Duration` (int64 nanoseconds). -/
def maxDuration : Int := 9223372036854775807

/-- Smallest `time.Duration` (int64 nanoseconds). -/
def minDuration : Int := -9223372036854775808

/-- Go `t.Sub(u)`: the difference in nanoseconds, saturating at the int64 range. -/
def Time.Sub (t u : Time) : Int :=
  let d := t.UnixNano - u.UnixNano
  if d > maxDuration then maxDuration
  else if d < minDuration then minDuration
  else d

/-- Ten minutes in nanoseconds. -/
def tenMinutes : Int := 600000000000

/-- Go `d.Minutes() > 10`.  `Minutes` is whole minutes plus the remaining
nanoseconds over `6e10` as float64; the sum exceeds 10 exactly when the
duration exceeds ten minutes. -/
def minutesGt10 (d : Int) : Bool := decide (tenMinutes < d)

/-- One decimal digit as a character. -/
def digitChar (n : Nat) : Char := Char.ofNat (48 + n % 10)

/-- Go `t.Format("2006")`: the year, zero-padded to four digits. -/
def formatYear (y : Nat) : String :=
  if y < 10000 then
    String.mk [digitChar (y / 1000), digitChar (y / 100), digitChar (y / 10), digitChar y]
  else toString y

/-- Go `strings.Join(xs, sep)`. -/
def stringsJoin : List String → String → String
  | [], _ => ""
  | [x], _ => x
  | x :: y :: rest, sep => x ++ sep ++ stringsJoin (y :: rest) sep

/-- ASCII lower-casing of one character. -/
def asciiLowerChar (c : Char) : Char :=
  if 65 ≤ c.toNat ∧ c.toNat ≤ 90 then Char.ofNat (c.toNat + 32) else c

/-- ASCII upper-casing of one character. -/
def asciiUpperChar (c : Char) : Char :=
  if 97 ≤ c.toNat ∧ c.toNat ≤ 122 then Char.ofNat (c.toNat - 32) else c

/-- Whether an ASCII character is a letter, digit or underscore. -/
def asciiWordChar (c : Char) : Bool :=
  (65 ≤ c.toNat && c.toNat ≤ 90) || (97 ≤ c.toNat && c.toNat ≤ 122) ||
    (48 ≤ c.toNat && c.toNat ≤ 57) || c.toNat == 95

/-- Upper-cases every character that follows a separator. -/
def asciiTitleAux : Bool → List Char → List Char
  | _, [] => []
  | atStart, c :: cs =>
    (if atStart then asciiUpperChar c else c) :: asciiTitleAux (!asciiWordChar c) cs

/-! ## Catalog entities (package `models`) -/

/-- A normalised label. -/
structure Tag where
  ID : Nat
  TagLabel : String
deriving DecidableEq, Repr

/-- A camera, keyed by its model string. -/
structure Camera where
  ID : Nat
  CameraModel : String
deriving DecidableEq, Repr

/-- A resolved place. -/
structure Location where
  ID : Nat
  LocCity : String
  LocCounty : String
  LocCountry : String
  LocCategory : String
  LocName : String
  LocType : String
deriving DecidableEq, Repr

/-- One logical photo.  The row is shown with its associations (tags, camera,
location); `First` does not load them and `Save` does not rewrite them. -/
structure Photo where
  ID : Nat
  PhotoTitle : String
  PhotoCanonicalName : String
  PhotoPerceptualHash : String
  PhotoLat : Nat
  PhotoLong : Nat
  PhotoArtist : String
  PhotoColors : String
  PhotoVibrantColor : String
  PhotoMutedColor : String
  PhotoFavorite : Bool
  Tags : List Tag
  Camera : Option Camera
  Location : Option Location
  TakenAt : Time
  CreatedAt : Time
  UpdatedAt : Time
deriving DecidableEq, Repr

/-- One physical file. -/
structure File where
  ID : Nat
  PhotoID : Nat
  FilePrimary : Bool
  FileName : String
  FileHash : String
  FileType : String
  FileMime : String
  FileOrientation : Int
  FileWidth : Int
  FileHeight : Int
  FileAspectRatio : Nat
deriving DecidableEq, Repr

/-- The store: every table as the list of its rows in primary-key order. -/
structure DB where
  photos : List Photo
  files : List File
  tags : List Tag
  cameras : List Camera
  locations : List Location
deriving DecidableEq, Repr

/-- The empty store. -/
def DB.empty : DB := { photos := [], files := [], tags := [], cameras := [], locations := [] }

/-- The key an auto-increment column hands out next. -/
def nextID (ids : List Nat) : Nat := ids.foldr max 0 + 1

/-- The zero `time.Time`. -/
def zeroTime : Time := { UnixNano := 0, Year := 1 }

/-- The zero value of `Photo`. -/
def Photo.zero : Photo :=
  { ID := 0, PhotoTitle := "", PhotoCanonicalName := "", PhotoPerceptualHash := "",
    PhotoLat := 0, PhotoLong := 0, PhotoArtist := "", PhotoColors := "",
    PhotoVibrantColor := "", PhotoMutedColor := "", PhotoFavorite := false,
    Tags := [], Camera := none, Location := none,
    TakenAt := zeroTime, CreatedAt := zeroTime, UpdatedAt := zeroTime }

/-- The zero value of `File`. -/
def File.zero : File :=
  { ID := 0, PhotoID := 0, FilePrimary := false, FileName := "", FileHash := "",
    FileType := "", FileMime := "", FileOrientation := 0, FileWidth := 0,
    FileHeight := 0, FileAspectRatio := 0 }

/-- Modelled from the spec: `models.NewTag`, declared outside this file; a Tag
is a normalised label, not yet stored. -/
def NewTag (label : String) : Tag := { ID := 0, TagLabel := label }

/-- Modelled from the spec: `Tag.FirstOrCreate`, declared outside this file;
look up the Tag by its label in the store, or create it, so that identical
labels share one Tag entity. -/
def Tag.FirstOrCreate (t : Tag) (db : DB) : Tag × DB :=
  match db.tags.find? (fun r => r.TagLabel == t.TagLabel) with
  | some r => (r, db)
  | none =>
    let r := { t with ID := nextID (db.tags.map Tag.ID) }
    (r, { db with tags := db.tags ++ [r] })

/-- Modelled from the spec: `models.NewCamera`, declared outside this file; a
Camera is keyed by its model string. -/
def NewCamera (modelName : String) : Camera := { ID := 0, CameraModel := modelName }

/-- Modelled from the spec: `Camera.FirstOrCreate`, declared outside this
file; look up the Camera by its model string, or create it. -/
def Camera.FirstOrCreate (c : Camera) (db : DB) : Camera × DB :=
  match db.cameras.find? (fun r => r.CameraModel == c.CameraModel) with
  | some r => (r, db)
  | none =>
    let r := { c with ID := nextID (db.cameras.map Camera.ID) }
    (r, { db with cameras := db.cameras ++ [r] })

/-- The call `db.FirstOrCreate(location, "id = ?", location.ID)`: the stored
row with that key is loaded over the value, or the value is inserted (under a
fresh key when its key is blank). -/
def Location.FirstOrCreate (l : Location) (db : DB) : Location × DB :=
  match db.locations.find? (fun r => r.ID == l.ID) with
  | some r => (r, db)
  | none =>
    let r := if l.ID = 0 then { l with ID := nextID (db.locations.map Location.ID) } else l
    (r, { db with locations := db.locations ++ [r] })

/-! ## Media files (what the getters of `MediaFile` return) -/

/-- One classifier result; the probability is a float32 bit pattern. -/
structure TensorFlowLabel where
  Label : String
  Probability : Nat
deriving DecidableEq, Repr

/-- Result of `GetExifData`; coordinates are float64 bit patterns. -/
structure ExifData where
  Lat : Nat
  Long : Nat
  Artist : String
deriving DecidableEq, Repr

/-- The JPEG rendition returned by `GetJpeg`, with the results of the getters
the indexer calls on it; `none` is a returned error. -/
structure JpegFile where
  filename : String
  GetPerceptualHash : Option String
  GetExifData : Option ExifData
  GetColors : List String × String × String
deriving DecidableEq, Repr

/-- A media file on disk, as the record of what its getters return. -/
structure MediaFile where
  filename : String
  GetCanonicalNameFromFile : String
  GetHash : String
  GetJpeg : Option JpegFile
  GetLocation : Option Location
  GetDateCreated : Time
  GetCameraModel : String
  GetType : String
  GetMimeType : String
  GetOrientation : Int
  GetWidth : Int
  GetHeight : Int
  GetAspectRatio : Nat
  IsPhoto : Bool
deriving DecidableEq, Repr

/-- The constant `FileTypeJpeg`, declared outside this file; its value is the
literal of the primary-file query. -/
def FileTypeJpeg : String := "jpg"

/-- Modelled from the spec: `MediaFile.GetRelativeFilename`, declared outside
this file; the path relative to the source root: below the root the root and
the separator after it are dropped, elsewhere the name is returned as is. -/
def MediaFile.GetRelativeFilename (m : MediaFile) (directory : String) : String :=
  if directory.data.isPrefixOf m.filename.data then
    String.mk (m.filename.data.drop (directory.data.length + 1))
  else m.filename

/-- One call of the walk function by `filepath.Walk`. -/
structure WalkEntry where
  filename : String
  IsDir : Bool
  err : Bool
deriving DecidableEq, Repr

/-- What the indexer reads from outside the store: the Unicode-table functions
of Go's `strings` package, the wall clock and the file system. -/
structure Env where
  /-- Go `strings.ToLower` -/
  ToLower : String → String
  /-- Go `strings.Title` -/
  Title : String → String
  /-- Go `time.Now()` at the n-th reconciliation -/
  Now : Nat → Time
  /-- The method `MediaFile.GetRelatedFiles`: related files and main file, or an error -/
  GetRelatedFiles : MediaFile → Option (List MediaFile × MediaFile)
  /-- The constructor `NewMediaFile`, or an error -/
  NewMediaFile : String → Option MediaFile
  /-- The calls `filepath.Walk` makes below a root, in order -/
  Walk : String → List WalkEntry

/-- The fields of `Indexer` other than the store handle. -/
structure Indexer where
  originalsPath : String
  /-- The classifier `tensorFlow.GetImageTagsFromFile`, or an error -/
  tensorFlow : String → Option (List TensorFlowLabel)

/-- The store together with the number of reconciliations made so far. -/
structure State where
  db : DB
  tick : Nat
deriving DecidableEq, Repr

/-! ## Tag aggregation -/

/-- Source `Indexer.appendTag` (indexer.go 51-67). -/
def appendTag (env : Env) (db : DB) (tags : List Tag) (label : String) : List Tag × DB :=
  if label = "" then (tags, db)
  else
    let label := env.ToLower label
    if tags.any (fun tag => tag.TagLabel == label) then (tags, db)
    else
      let r := (NewTag label).FirstOrCreate db
      (tags ++ [r.1], r.2)

/-- Go `p > 0.15` for a float32 `p`: the constant rounds to the bit pattern
`0x3E19999A`; a non-negative float exceeds it exactly when its bit pattern
does, up to `+Inf`; negative values and NaN do not. -/
def probabilityGt015 (bits : Nat) : Bool :=
  decide (0x3E19999A < bits) && decide (bits ≤ 0x7F800000)

/-- Source `Indexer.GetImageTags` (indexer.go 35-49). -/
def GetImageTags (env : Env) (i : Indexer) (db : DB) (jpeg : JpegFile) : List Tag × DB :=
  match i.tensorFlow jpeg.filename with
  | none => ([], db)
  | some tags =>
    tags.foldl
      (fun (acc : List Tag × DB) tag =>
        if probabilityGt015 tag.Probability then appendTag env acc.2 acc.1 tag.Label else acc)
      ([], db)

/-- Appending labels in turn with `appendTag`. -/
def appendTags (env : Env) (db : DB) (tags : List Tag) (labels : List String) : List Tag × DB :=
  labels.foldl (fun acc l => appendTag env acc.2 acc.1 l) (tags, db)

/-! ## Reconciliation of one media file -/

/-- Go `fmt.Sprintf("%s / %s / %s", a, b, c)`. -/
def sprintf3 (a b c : String) : String := a ++ " / " ++ b ++ " / " ++ c

/-- Go `fmt.Sprintf("%s / %s", a, b)`. -/
def sprintf2 (a b : String) : String := a ++ " / " ++ b

/-- The JPEG block of the create branch (indexer.go 83-103): perceptual hash,
EXIF data, colours and classifier tags. -/
def extractJpeg (env : Env) (i : Indexer) (db : DB) (mediaFile : MediaFile) (photo : Photo) :
    Photo × List Tag × DB :=
  match mediaFile.GetJpeg with
  | none => (photo, [], db)
  | some jpeg =>
    let photo :=
      match jpeg.GetPerceptualHash with
      | some perceptualHash => { photo with PhotoPerceptualHash := perceptualHash }
      | none => photo
    let photo :=
      match jpeg.GetExifData with
      | some exifData =>
        { photo with PhotoLat := exifData.Lat, PhotoLong := exifData.Long,
                     PhotoArtist := exifData.Artist }
      | none => photo
    let photo :=
      { photo with PhotoVibrantColor := jpeg.GetColors.2.1, PhotoMutedColor := jpeg.GetColors.2.2,
                   PhotoColors := stringsJoin jpeg.GetColors.1 ", " }
    let r := GetImageTags env i db jpeg
    (photo, r.1, r.2)

/-- The location title rules of the create branch (indexer.go 116-122). -/
def locationTitle (photo : Photo) (location : Location) (year : String) : Photo :=
  if photo.PhotoTitle = "" ∧ location.LocName ≠ "" then
    { photo with PhotoTitle := sprintf3 location.LocName location.LocCountry year }
  else if photo.PhotoTitle = "" ∧ location.LocCity ≠ "" then
    { photo with PhotoTitle := sprintf3 location.LocCity location.LocCountry year }
  else if photo.PhotoTitle = "" ∧ location.LocCounty ≠ "" then
    { photo with PhotoTitle := sprintf3 location.LocCounty location.LocCountry year }
  else photo

/-- The location block of the create branch (indexer.go 105-123). -/
def applyLocation (env : Env) (db : DB) (mediaFile : MediaFile) (photo : Photo)
    (tags : List Tag) : Photo × List Tag × DB :=
  match mediaFile.GetLocation with
  | none => (photo, tags, db)
  | some location =>
    let r := location.FirstOrCreate db
    let location := r.1
    let photo := { photo with Location := some location }
    let r := appendTag env r.2 tags location.LocCity
    let r := appendTag env r.2 r.1 location.LocCounty
    let r := appendTag env r.2 r.1 location.LocCountry
    let r := appendTag env r.2 r.1 location.LocCategory
    let r := appendTag env r.2 r.1 location.LocName
    let r := appendTag env r.2 r.1 location.LocType
    (locationTitle photo location (formatYear mediaFile.GetDateCreated.Year), r.1, r.2)

/-- The fallback title rules of the create branch (indexer.go 125-131); they
read `photo.Tags`, which is assigned afterwards. -/
def fallbackTitle (env : Env) (mediaFile : MediaFile) (photo : Photo) : Photo :=
  if photo.PhotoTitle = "" then
    match photo.Tags with
    | tag :: _ =>
      { photo with
        PhotoTitle := sprintf2 (env.Title tag.TagLabel) (formatYear mediaFile.GetDateCreated.Year) }
    | [] =>
      { photo with PhotoTitle := sprintf2 "Unknown" (formatYear mediaFile.GetDateCreated.Year) }
  else photo

/-- The create branch (indexer.go 82-140), entered with the zero `photo` that
the failed query left; returns the stored row and the store. -/
def createPhoto (env : Env) (i : Indexer) (db : DB) (now : Time) (mediaFile : MediaFile)
    (canonicalName : String) (photo : Photo) : Photo × DB :=
  let r := extractJpeg env i db mediaFile photo
  let r := applyLocation env r.2.2 mediaFile r.1 r.2.1
  let photo := fallbackTitle env mediaFile r.1
  let tags := r.2.1
  let photo := { photo with Tags := tags }
  let c := (NewCamera mediaFile.GetCameraModel).FirstOrCreate r.2.2
  let photo := { photo with Camera := some c.1, TakenAt := mediaFile.GetDateCreated,
                            PhotoCanonicalName := canonicalName, PhotoFavorite := false }
  let db := c.2
  let photo := { photo with ID := nextID (db.photos.map Photo.ID), CreatedAt := now,
                            UpdatedAt := now }
  (photo, { db with photos := db.photos ++ [photo] })

/-- The refresh branch (indexer.go 141-157), entered with the loaded row. -/
def refreshPhoto (db : DB) (now : Time) (mediaFile : MediaFile) (photo : Photo) : Photo × DB :=
  let photo :=
    match mediaFile.GetJpeg with
    | none => photo
    | some jpeg =>
      let photo :=
        if photo.PhotoPerceptualHash = "" then
          match jpeg.GetPerceptualHash with
          | some perceptualHash => { photo with PhotoPerceptualHash := perceptualHash }
          | none => photo
        else photo
      { photo with PhotoVibrantColor := jpeg.GetColors.2.1, PhotoMutedColor := jpeg.GetColors.2.2,
                   PhotoColors := stringsJoin jpeg.GetColors.1 ", " }
  let photo := { photo with UpdatedAt := now }
  (photo, { db with photos := db.photos.map (fun r => if r.ID = photo.ID then photo else r) })

/-- The photo half of `IndexMediaFile` (indexer.go 80-157): create, refresh or
leave the Photo with the canonical name; returns the `photo` variable and the
store. -/
def reconcilePhoto (env : Env) (i : Indexer) (db : DB) (now : Time) (mediaFile : MediaFile) :
    Photo × DB :=
  let canonicalName := mediaFile.GetCanonicalNameFromFile
  match db.photos.find? (fun r => r.PhotoCanonicalName == canonicalName) with
  | none => createPhoto env i db now mediaFile canonicalName Photo.zero
  | some photo =>
    if minutesGt10 (now.Sub photo.UpdatedAt) then refreshPhoto db now mediaFile photo
    else (photo, db)

/-- The query for the current primary file of a photo (indexer.go 159). -/
def findPrimaryFile (db : DB) (photoID : Nat) : Option File :=
  db.files.find? (fun r => r.FileType == "jpg" && r.FilePrimary && r.PhotoID == photoID)

/-- The primary-flag decision (indexer.go 159-163). -/
def decidePrimary (db : DB) (photoID : Nat) (mediaFile : MediaFile)
    (relativeFileName fileHash : String) : Bool :=
  match findPrimaryFile db photoID with
  | none => mediaFile.GetType == FileTypeJpeg
  | some primaryFile =>
    mediaFile.GetType == FileTypeJpeg &&
      (relativeFileName == primaryFile.FileName || fileHash == primaryFile.FileHash)

/-- The query for the file row of an observation (indexer.go 165). -/
def findFile (db : DB) (fileHash relativeFileName : String) : Option File :=
  db.files.find? (fun r => r.FileHash == fileHash || r.FileName == relativeFileName)

/-- The field assignments to `file` (indexer.go 167-179). -/
def fillFile (file : File) (photoID : Nat) (isPrimary : Bool) (mediaFile : MediaFile)
    (relativeFileName fileHash : String) : File :=
  let file :=
    { file with PhotoID := photoID, FilePrimary := isPrimary, FileName := relativeFileName,
                FileHash := fileHash, FileType := mediaFile.GetType,
                FileMime := mediaFile.GetMimeType, FileOrientation := mediaFile.GetOrientation }
  if mediaFile.GetWidth > 0 ∧ mediaFile.GetHeight > 0 then
    { file with FileWidth := mediaFile.GetWidth, FileHeight := mediaFile.GetHeight,
                FileAspectRatio := mediaFile.GetAspectRatio }
  else file

/-- The file half of `IndexMediaFile` (indexer.go 159-187); returns the result
string, the row written and the store. -/
def reconcileFile (i : Indexer) (db : DB) (photoID : Nat) (mediaFile : MediaFile) :
    String × File × DB :=
  let fileHash := mediaFile.GetHash
  let relativeFileName := mediaFile.GetRelativeFilename i.originalsPath
  let isPrimary := decidePrimary db photoID mediaFile relativeFileName fileHash
  match findFile db fileHash relativeFileName with
  | some file =>
    let file := fillFile file photoID isPrimary mediaFile relativeFileName fileHash
    ("Updated", file,
      { db with files := db.files.map (fun r => if r.ID = file.ID then file else r) })
  | none =>
    let file := fillFile File.zero photoID isPrimary mediaFile relativeFileName fileHash
    let file := { file with ID := nextID (db.files.map File.ID) }
    ("Added", file, { db with files := db.files ++ [file] })

/-- Source `Indexer.IndexMediaFile` (indexer.go 69-188): the result string and
the state after the call. -/
def IndexMediaFile (env : Env) (i : Indexer) (s : State) (mediaFile : MediaFile) :
    String × State :=
  let p := reconcilePhoto env i s.db (env.Now s.tick) mediaFile
  let f := reconcileFile i p.2 p.1.ID mediaFile
  (f.1, { db := f.2.2, tick := s.tick + 1 })

/-- The `photo` variable of `IndexMediaFile` after the photo half. -/
def IndexMediaFile.photo (env : Env) (i : Indexer) (s : State) (mediaFile : MediaFile) : Photo :=
  (reconcilePhoto env i s.db (env.Now s.tick) mediaFile).1

/-- The `file` variable of `IndexMediaFile` as it is written to the store. -/
def IndexMediaFile.file (env : Env) (i : Indexer) (s : State) (mediaFile : MediaFile) : File :=
  (reconcileFile i (reconcilePhoto env i s.db (env.Now s.tick) mediaFile).2
    (reconcilePhoto env i s.db (env.Now s.tick) mediaFile).1.ID mediaFile).2.1

/-! ## Groups and the traversal -/

/-- The loop over the related files in `IndexRelated` (indexer.go 206-215). -/
def indexRelatedLoop (env : Env) (i : Indexer) :
    List MediaFile → Finset String × State → Finset String × State
  | [], acc => acc
  | relatedMediaFile :: rest, (indexed, s) =>
    if relatedMediaFile.filename ∈ indexed then indexRelatedLoop env i rest (indexed, s)
    else
      indexRelatedLoop env i rest
        (insert relatedMediaFile.filename indexed, (IndexMediaFile env i s relatedMediaFile).2)

/-- Source `Indexer.IndexRelated` (indexer.go 190-218): the set of keys of the
returned map (every value is `true`) and the state after the call. -/
def IndexRelated (env : Env) (i : Indexer) (s : State) (mediaFile : MediaFile) :
    Finset String × State :=
  match env.GetRelatedFiles mediaFile with
  | none => (∅, s)
  | some (relatedFiles, mainFile) =>
    let s := (IndexMediaFile env i s mainFile).2
    indexRelatedLoop env i relatedFiles ({mainFile.filename}, s)

/-- Go `filepath.Base` for slash-separated paths. -/
def filepathBase (path : String) : String :=
  if path = "" then "."
  else
    let stripped := path.data.reverse.dropWhile (fun c => c == '/')
    let last := (stripped.takeWhile (fun c => c != '/')).reverse
    if last = [] then "/" else String.mk last

/-- Go `strings.HasPrefix(s, ".")`. -/
def hasDotPrefix (s : String) : Bool := s.data.head? == some '.'

/-- The walk function of `IndexAll` (indexer.go 223-243). -/
def indexAllStep (env : Env) (i : Indexer) (acc : Finset String × State) (e : WalkEntry) :
    Finset String × State :=
  if e.err ∨ e.filename ∈ acc.1 then acc
  else if e.IsDir ∨ hasDotPrefix (filepathBase e.filename) then acc
  else
    match env.NewMediaFile e.filename with
    | none => acc
    | some mediaFile =>
      if !mediaFile.IsPhoto then acc
      else
        let r := IndexRelated env i acc.2 mediaFile
        (acc.1 ∪ r.1, r.2)

/-- Source `Indexer.IndexAll` (indexer.go 220-250). -/
def IndexAll (env : Env) (i : Indexer) (s : State) : Finset String × State :=
  (env.Walk i.originalsPath).foldl (indexAllStep env i) (∅, s)

/-! ## The order of reconciliations -/

/-- Running `IndexMediaFile` on media files in turn. -/
def indexEach (env : Env) (i : Indexer) (s : State) (mediaFiles : List MediaFile) : State :=
  mediaFiles.foldl (fun s m => (IndexMediaFile env i s m).2) s

/-- The files of a list whose filename is not marked when their turn comes:
in list order, a file is kept and its filename marked unless the filename is
marked already. -/
def unmarked : List MediaFile → Finset String → List MediaFile
  | [], _ => []
  | m :: rest, marked =>
    if m.filename ∈ marked then unmarked rest marked
    else m :: unmarked rest (insert m.filename marked)

/-- The reconciliations of one group, as the specification words them: none when
grouping fails, otherwise the main file first and then the related files not
yet marked. -/
def groupOrder (env : Env) (mediaFile : MediaFile) : List MediaFile :=
  match env.GetRelatedFiles mediaFile with
  | none => []
  | some (relatedFiles, mainFile) => mainFile :: unmarked relatedFiles {mainFile.filename}

/-- The filenames of one group: none when grouping fails, otherwise those of
the main file and of the related files. -/
def groupNames (env : Env) (mediaFile : MediaFile) : Finset String :=
  match env.GetRelatedFiles mediaFile with
  | none => ∅
  | some (relatedFiles, mainFile) =>
    insert mainFile.filename (relatedFiles.map MediaFile.filename).toFinset

/-- The walk function of `IndexAll` with the store left out: the filenames
marked and the reconciliations made so far. -/
def walkOrderStep (env : Env) (acc : Finset String × List MediaFile) (e : WalkEntry) :
    Finset String × List MediaFile :=
  if e.err ∨ e.filename ∈ acc.1 then acc
  else if e.IsDir ∨ hasDotPrefix (filepathBase e.filename) then acc
  else
    match env.NewMediaFile e.filename with
    | none => acc
    | some mediaFile =>
      if !mediaFile.IsPhoto then acc
      else (acc.1 ∪ groupNames env mediaFile, acc.2 ++ groupOrder env mediaFile)

/-- The reconciliations of one run of `IndexAll`, in order. -/
def walkOrder (env : Env) (i : Indexer) : List MediaFile :=
  ((env.Walk i.originalsPath).foldl (walkOrderStep env) (∅, [])).2

/-- An unchanged tree: among the media files of a run, the relative path
determines the content hash. -/
def OneHashPerPath (i : Indexer) (run : List MediaFile) : Prop :=
  ∀ m ∈ run, ∀ m' ∈ run,
    m.GetRelativeFilename i.originalsPath = m'.GetRelativeFilename i.originalsPath →
      m.GetHash = m'.GetHash

instance (i : Indexer) (run : List MediaFile) : Decidable (OneHashPerPath i run) := by
  unfold OneHashPerPath
  infer_instance

/-- The file table holds a row with the content hash whose path, if a media
file of the run has it, goes with that hash, and whose key no different row
carries. -/
def Covers (i : Indexer) (run : List MediaFile) (files : List File) (fileHash : String) : Prop :=
  ∃ r ∈ files, r.FileHash = fileHash ∧
    (∀ m ∈ run, m.GetRelativeFilename i.originalsPath = r.FileName → m.GetHash = r.FileHash) ∧
    ∀ r' ∈ files, r'.ID = r.ID → r' = r

/-- The store knows a media file: it holds a Photo with the canonical name and
covers the content hash. -/
def Known (i : Indexer) (run : List MediaFile) (db : DB) (m : MediaFile) : Prop :=
  (∃ p ∈ db.photos, p.PhotoCanonicalName = m.GetCanonicalNameFromFile) ∧
    Covers i run db.files m.GetHash

/-- Primary exclusivity: no two File rows of one Photo both have type jpg and
the primary flag. -/
def PrimaryExclusive (db : DB) : Prop :=
  db.files.Pairwise (fun f g =>
    ¬ (f.FileType = "jpg" ∧ f.FilePrimary = true ∧ g.FileType = "jpg" ∧ g.FilePrimary = true ∧
      f.PhotoID = g.PhotoID))

instance (db : DB) : Decidable (PrimaryExclusive db) := by
  unfold PrimaryExclusive
  infer_instance

/-! ## Concrete environment for evaluation -/

/-- Go `strings.ToLower` and `strings.Title` on ASCII text, a clock that starts
at zero and advances one minute per reading, and an empty file system. -/
def asciiEnv : Env where
  ToLower := fun s => String.mk (s.data.map asciiLowerChar)
  Title := fun s => String.mk (asciiTitleAux true s.data)
  Now := fun n => { UnixNano := 60000000000 * n, Year := 1970 }
  GetRelatedFiles := fun _ => none
  NewMediaFile := fun _ => none
  Walk := fun _ => []

/-- An indexer rooted at `/o` whose classifier fails. -/
def plainIndexer : Indexer := { originalsPath := "/o", tensorFlow := fun _ => none }

/-- An indexer rooted at `/o` whose classifier reports `cat` with probability
0.9 (float32 `0x3F666666`) for every file. -/
def catIndexer : Indexer :=
  { originalsPath := "/o", tensorFlow := fun _ => some [{ Label := "cat", Probability := 0x3F666666 }] }

/-- A JPEG below `/o` with the given name, canonical name, content hash and
location, taken in 2021. -/
def jpegAt (name canonicalName hash : String) (location : Option Location) : MediaFile :=
  { filename := "/o/" ++ name, GetCanonicalNameFromFile := canonicalName, GetHash := hash,
    GetJpeg := some { filename := "/o/" ++ name, GetPerceptualHash := some "ph",
                      GetExifData := none, GetColors := (["red", "grey"], "red", "grey") },
    GetLocation := location,
    GetDateCreated := { UnixNano := 1609459200000000000, Year := 2021 },
    GetCameraModel := "X100", GetType := "jpg", GetMimeType := "image/jpeg",
    GetOrientation := 1, GetWidth := 4, GetHeight := 3, GetAspectRatio := 0x3FF5555555555555,
    IsPhoto := true }

/-- A JPEG without location. -/
def catFile : MediaFile := jpegAt "IMG_001.jpg" "20210101_IMG_001" "h1" none

/-- The place of the title example: city Lyon, country France, no name. -/
def lyon : Location :=
  { ID := 7, LocCity := "Lyon", LocCounty := "", LocCountry := "France", LocCategory := "",
    LocName := "", LocType := "" }

/-- A JPEG located in Lyon. -/
def lyonFile : MediaFile := jpegAt "IMG_002.jpg" "20210101_IMG_002" "h2" (some lyon)

/-- A RAW file below `/o` with the given name, canonical name and content hash,
taken in 2021, for which no JPEG rendition is available. -/
def rawAt (name canonicalName hash : String) : MediaFile :=
  { filename := "/o/" ++ name, GetCanonicalNameFromFile := canonicalName, GetHash := hash,
    GetJpeg := none, GetLocation := none,
    GetDateCreated := { UnixNano := 1609459200000000000, Year := 2021 },
    GetCameraModel := "X100", GetType := "raw", GetMimeType := "image/x-raw",
    GetOrientation := 1, GetWidth := 0, GetHeight := 0, GetAspectRatio := 0,
    IsPhoto := true }

/-- The RAW sibling of `catFile`. -/
def catRaw : MediaFile := rawAt "IMG_001.raw" "20210101_IMG_001" "h0"

/-- The store after `catRaw` alone was indexed into the empty store, at clock
reading zero. -/
def rawStore : DB := (IndexMediaFile asciiEnv plainIndexer { db := DB.empty, tick := 0 } catRaw).2.db

/-- The Photo row of `rawStore`: no perceptual hash, no colours. -/
def rawPhoto : Photo :=
  { Photo.zero with
    ID := 1, PhotoTitle := "Unknown / 2021", PhotoCanonicalName := "20210101_IMG_001",
    Camera := some { ID := 1, CameraModel := "X100" },
    TakenAt := { UnixNano := 1609459200000000000, Year := 2021 },
    CreatedAt := { UnixNano := 0, Year := 1970 }, UpdatedAt := { UnixNano := 0, Year := 1970 } }

/-- A source tree `/o` holding a hidden file, `IMG_001.jpg`, `IMG_001.raw` and
a text file; the two images form one group whose main file is the JPEG. -/
def treeEnv : Env :=
  { asciiEnv with
    GetRelatedFiles := fun m =>
      if m.filename = "/o/IMG_001.jpg" ∨ m.filename = "/o/IMG_001.raw" then
        some ([catFile, catRaw], catFile)
      else none
    NewMediaFile := fun f =>
      if f = "/o/IMG_001.jpg" then some catFile
      else if f = "/o/IMG_001.raw" then some catRaw
      else none
    Walk := fun root =>
      if root = "/o" then
        [{ filename := "/o", IsDir := true, err := false },
         { filename := "/o/.hidden", IsDir := false, err := false },
         { filename := "/o/IMG_001.jpg", IsDir := false, err := false },
         { filename := "/o/IMG_001.raw", IsDir := false, err := false },
         { filename := "/o/notes.txt", IsDir := false, err := false }]
      else [] }

/-- The JPEG `b.jpg` of a photo `b` with content hash `h2`. -/
def bFile : MediaFile := jpegAt "b.jpg" "b" "h2" none

/-- The JPEG `a.jpg` of a photo `a` with content hash `h1`. -/
def aFile : MediaFile := jpegAt "a.jpg" "a" "h1" none

/-- The JPEG `a.jpg` after its content was replaced by that of `b.jpg`. -/
def aFileReplaced : MediaFile := jpegAt "a.jpg" "a" "h2" none

/-! ## Theorems: tag aggregation -/

/-- The tag that `FirstOrCreate` returns carries the label asked for. -/
theorem tag_firstOrCreate_label (t : Tag) (db : DB) : (t.FirstOrCreate db).1.TagLabel = t.TagLabel := by
  unfold Tag.FirstOrCreate
  split
  · next r h =>
    have := List.find?_some h
    simpa using this
  · rfl

/-- The first two exits of `appendTag`. -/
theorem appendTag_noop (env : Env) (db : DB) (ts : List Tag) (l : String)
    (h : l = "" ∨ ∃ t ∈ ts, t.TagLabel = env.ToLower l) : appendTag env db ts l = (ts, db) := by
  unfold appendTag
  by_cases hl : l = ""
  · simp [hl]
  · have hex : ∃ t ∈ ts, t.TagLabel = env.ToLower l := h.resolve_left hl
    have : ts.any (fun tag => tag.TagLabel == env.ToLower l) = true := by
      simpa [List.any_eq_true] using hex
    simp [hl, this]

/-- The last exit of `appendTag`. -/
theorem appendTag_append (env : Env) (db : DB) (ts : List Tag) (l : String)
    (h : ¬ (l = "" ∨ ∃ t ∈ ts, t.TagLabel = env.ToLower l)) :
    appendTag env db ts l =
      (ts ++ [((NewTag (env.ToLower l)).FirstOrCreate db).1],
        ((NewTag (env.ToLower l)).FirstOrCreate db).2) := by
  unfold appendTag
  push_neg at h
  have : ts.any (fun tag => tag.TagLabel == env.ToLower l) = false := by
    simpa [List.any_eq_false] using h.2
  simp [h.1, this]

/-- C8. The contract of `appendTag`: when the label is empty or its
lower-cased form is the label of a tag of the list, the list is returned
unchanged; otherwise the list is returned followed by exactly one tag, whose
label is the lower-cased label, the order of the list kept; and appending the
same label again changes neither the list nor the store. -/
theorem appendTag_contract (env : Env) (db : DB) (ts : List Tag) (l : String) :
    ((l = "" ∨ ∃ t ∈ ts, t.TagLabel = env.ToLower l) → (appendTag env db ts l).1 = ts) ∧
    (¬ (l = "" ∨ ∃ t ∈ ts, t.TagLabel = env.ToLower l) →
      ∃ t, (appendTag env db ts l).1 = ts ++ [t] ∧ t.TagLabel = env.ToLower l) ∧
    appendTag env (appendTag env db ts l).2 (appendTag env db ts l).1 l = appendTag env db ts l := by
  refine ⟨fun h => by rw [appendTag_noop env db ts l h], fun h => ?_, ?_⟩
  · refine ⟨((NewTag (env.ToLower l)).FirstOrCreate db).1, by rw [appendTag_append env db ts l h], ?_⟩
    rw [tag_firstOrCreate_label]; rfl
  · by_cases h : l = "" ∨ ∃ t ∈ ts, t.TagLabel = env.ToLower l
    · rw [appendTag_noop env db ts l h]
      exact appendTag_noop env db ts l h
    · rw [appendTag_append env db ts l h]
      apply appendTag_noop
      right
      refine ⟨((NewTag (env.ToLower l)).FirstOrCreate db).1, by simp, ?_⟩
      rw [tag_firstOrCreate_label]; rfl


/-- C4, as stated: appending `Paris`, `paris` and `PARIS ` (with its trailing
space) to the empty list does not yield a list of exactly one tag labelled
`paris`: `appendTag` does not trim, and `paris ` is a second tag. -/
theorem appendTag_paris_untrimmed :
    ¬ ∃ t : Tag, (appendTags asciiEnv DB.empty [] ["Paris", "paris", "PARIS "]).1 = [t] ∧
      t.TagLabel = "paris" := by
  have h : (appendTags asciiEnv DB.empty [] ["Paris", "paris", "PARIS "]).1 =
      [⟨1, "paris"⟩, ⟨2, "paris "⟩] := by decide
  rw [h]
  rintro ⟨t, ht, -⟩
  simp at ht

/-- C4, amended: for a `strings.ToLower` that lower-cases these four labels
as Go does, appending `Paris`, `paris` and the trimmed `PARIS` to the empty
list yields exactly one tag, labelled `paris`; with the untrimmed `PARIS ` it
yields two tags, labelled `paris` and `paris `. -/
theorem appendTag_paris_trimmed (env : Env) (db : DB)
    (h1 : env.ToLower "Paris" = "paris") (h2 : env.ToLower "paris" = "paris")
    (h3 : env.ToLower "PARIS" = "paris") (h4 : env.ToLower "PARIS " = "paris ") :
    (∃ t : Tag, (appendTags env db [] ["Paris", "paris", "PARIS"]).1 = [t] ∧
        t.TagLabel = "paris") ∧
    (∃ t u : Tag, (appendTags env db [] ["Paris", "paris", "PARIS "]).1 = [t, u] ∧
        t.TagLabel = "paris" ∧ u.TagLabel = "paris ") := by
  have e1 : appendTag env db [] "Paris" =
      ([((NewTag "paris").FirstOrCreate db).1], ((NewTag "paris").FirstOrCreate db).2) := by
    have := appendTag_append env db [] "Paris" (by simp)
    simpa [h1] using this
  have l1 : ((NewTag "paris").FirstOrCreate db).1.TagLabel = "paris" :=
    tag_firstOrCreate_label _ _
  generalize ((NewTag "paris").FirstOrCreate db).1 = t0 at e1 l1
  generalize ((NewTag "paris").FirstOrCreate db).2 = d0 at e1
  have e2 : appendTag env d0 [t0] "paris" = ([t0], d0) :=
    appendTag_noop env d0 _ "paris" (Or.inr ⟨t0, by simp, by rw [l1, h2]⟩)
  have e3 : appendTag env d0 [t0] "PARIS" = ([t0], d0) :=
    appendTag_noop env d0 _ "PARIS" (Or.inr ⟨t0, by simp, by rw [l1, h3]⟩)
  have e4 : appendTag env d0 [t0] "PARIS " =
      ([t0] ++ [((NewTag "paris ").FirstOrCreate d0).1],
        ((NewTag "paris ").FirstOrCreate d0).2) := by
    have := appendTag_append env d0 [t0] "PARIS " (by simp [l1, h4])
    simpa [h4] using this
  have l4 : ((NewTag "paris ").FirstOrCreate d0).1.TagLabel = "paris " :=
    tag_firstOrCreate_label _ _
  constructor
  · refine ⟨t0, ?_, l1⟩
    simp [appendTags, e1, e2, e3]
  · refine ⟨t0, ((NewTag "paris ").FirstOrCreate d0).1, ?_, l1, l4⟩
    simp [appendTags, e1, e2, e4]

/-- C4, amended, on the ASCII environment and the empty store. -/
theorem appendTag_paris_trimmed_witness :
    (∃ t : Tag, (appendTags asciiEnv DB.empty [] ["Paris", "paris", "PARIS"]).1 = [t] ∧
        t.TagLabel = "paris") ∧
    (∃ t u : Tag, (appendTags asciiEnv DB.empty [] ["Paris", "paris", "PARIS "]).1 = [t, u] ∧
        t.TagLabel = "paris" ∧ u.TagLabel = "paris ") :=
  appendTag_paris_trimmed asciiEnv DB.empty (by decide) (by decide) (by decide) (by decide)

/-! ## Theorems: the store tables each step touches -/

theorem tag_firstOrCreate_tables (t : Tag) (db : DB) :
    (t.FirstOrCreate db).2.photos = db.photos ∧ (t.FirstOrCreate db).2.files = db.files ∧
    (t.FirstOrCreate db).2.cameras = db.cameras ∧
    (t.FirstOrCreate db).2.locations = db.locations := by
  unfold Tag.FirstOrCreate
  split <;> simp

theorem appendTag_tables (env : Env) (db : DB) (ts : List Tag) (l : String) :
    (appendTag env db ts l).2.photos = db.photos ∧ (appendTag env db ts l).2.files = db.files ∧
    (appendTag env db ts l).2.cameras = db.cameras ∧
    (appendTag env db ts l).2.locations = db.locations := by
  by_cases h : l = "" ∨ ∃ t ∈ ts, t.TagLabel = env.ToLower l
  · rw [appendTag_noop env db ts l h]
    simp
  · rw [appendTag_append env db ts l h]
    exact tag_firstOrCreate_tables _ _

theorem GetImageTags_tables (env : Env) (i : Indexer) (db : DB) (jpeg : JpegFile) :
    (GetImageTags env i db jpeg).2.photos = db.photos ∧
    (GetImageTags env i db jpeg).2.files = db.files ∧
    (GetImageTags env i db jpeg).2.cameras = db.cameras ∧
    (GetImageTags env i db jpeg).2.locations = db.locations := by
  unfold GetImageTags
  split
  · simp
  · next tags _ =>
    suffices h : ∀ (labels : List TensorFlowLabel) (acc : List Tag × DB),
        (labels.foldl (fun (acc : List Tag × DB) tag =>
            if probabilityGt015 tag.Probability then appendTag env acc.2 acc.1 tag.Label
            else acc) acc).2.photos = acc.2.photos ∧
        (labels.foldl (fun (acc : List Tag × DB) tag =>
            if probabilityGt015 tag.Probability then appendTag env acc.2 acc.1 tag.Label
            else acc) acc).2.files = acc.2.files ∧
        (labels.foldl (fun (acc : List Tag × DB) tag =>
            if probabilityGt015 tag.Probability then appendTag env acc.2 acc.1 tag.Label
            else acc) acc).2.cameras = acc.2.cameras ∧
        (labels.foldl (fun (acc : List Tag × DB) tag =>
            if probabilityGt015 tag.Probability then appendTag env acc.2 acc.1 tag.Label
            else acc) acc).2.locations = acc.2.locations from h tags ([], db)
    intro labels
    induction labels with
    | nil => intro acc; simp
    | cons tag rest ih =>
      intro acc
      simp only [List.foldl_cons]
      obtain ⟨h1, h2, h3, h4⟩ := ih (if probabilityGt015 tag.Probability then
        appendTag env acc.2 acc.1 tag.Label else acc)
      rw [h1, h2, h3, h4]
      split
      · exact appendTag_tables _ _ _ _
      · simp

theorem extractJpeg_tables (env : Env) (i : Indexer) (db : DB) (mediaFile : MediaFile)
    (photo : Photo) :
    (extractJpeg env i db mediaFile photo).2.2.photos = db.photos ∧
    (extractJpeg env i db mediaFile photo).2.2.files = db.files ∧
    (extractJpeg env i db mediaFile photo).2.2.cameras = db.cameras ∧
    (extractJpeg env i db mediaFile photo).2.2.locations = db.locations := by
  unfold extractJpeg
  split
  · simp
  · exact GetImageTags_tables _ _ _ _

theorem extractJpeg_title (env : Env) (i : Indexer) (db : DB) (mediaFile : MediaFile)
    (photo : Photo) :
    (extractJpeg env i db mediaFile photo).1.PhotoTitle = photo.PhotoTitle ∧
    (extractJpeg env i db mediaFile photo).1.Tags = photo.Tags := by
  unfold extractJpeg
  split
  · simp
  · next jpeg _ =>
    cases jpeg.GetPerceptualHash <;> cases jpeg.GetExifData <;> simp

theorem location_firstOrCreate_tables (l : Location) (db : DB) :
    (l.FirstOrCreate db).2.photos = db.photos ∧ (l.FirstOrCreate db).2.files = db.files := by
  unfold Location.FirstOrCreate
  split <;> simp

theorem location_firstOrCreate_congr (l : Location) (db db' : DB)
    (h : db'.locations = db.locations) : (l.FirstOrCreate db').1 = (l.FirstOrCreate db).1 := by
  unfold Location.FirstOrCreate
  rw [h]
  split <;> simp

theorem camera_firstOrCreate_tables (c : Camera) (db : DB) :
    (c.FirstOrCreate db).2.photos = db.photos ∧ (c.FirstOrCreate db).2.files = db.files := by
  unfold Camera.FirstOrCreate
  split <;> simp

theorem applyLocation_tables (env : Env) (db : DB) (mediaFile : MediaFile) (photo : Photo)
    (tags : List Tag) :
    (applyLocation env db mediaFile photo tags).2.2.photos = db.photos ∧
    (applyLocation env db mediaFile photo tags).2.2.files = db.files := by
  unfold applyLocation
  split
  · simp
  · next location _ =>
    simp only
    have h := location_firstOrCreate_tables location db
    refine ⟨?_, ?_⟩
    · rw [(appendTag_tables _ _ _ _).1, (appendTag_tables _ _ _ _).1, (appendTag_tables _ _ _ _).1,
        (appendTag_tables _ _ _ _).1, (appendTag_tables _ _ _ _).1, (appendTag_tables _ _ _ _).1,
        h.1]
    · rw [(appendTag_tables _ _ _ _).2.1, (appendTag_tables _ _ _ _).2.1,
        (appendTag_tables _ _ _ _).2.1, (appendTag_tables _ _ _ _).2.1,
        (appendTag_tables _ _ _ _).2.1, (appendTag_tables _ _ _ _).2.1, h.2]

theorem createPhoto_photos (env : Env) (i : Indexer) (db : DB) (now : Time)
    (mediaFile : MediaFile) (canonicalName : String) (photo : Photo) :
    (createPhoto env i db now mediaFile canonicalName photo).2.photos =
      db.photos ++ [(createPhoto env i db now mediaFile canonicalName photo).1] ∧
    (createPhoto env i db now mediaFile canonicalName photo).2.files = db.files ∧
    (createPhoto env i db now mediaFile canonicalName photo).1.ID =
      nextID (db.photos.map Photo.ID) ∧
    (createPhoto env i db now mediaFile canonicalName photo).1.PhotoCanonicalName =
      canonicalName := by
  have hp : ((NewCamera mediaFile.GetCameraModel).FirstOrCreate
      (applyLocation env (extractJpeg env i db mediaFile photo).2.2 mediaFile
        (extractJpeg env i db mediaFile photo).1
        (extractJpeg env i db mediaFile photo).2.1).2.2).2.photos = db.photos := by
    rw [(camera_firstOrCreate_tables _ _).1, (applyLocation_tables _ _ _ _ _).1,
      (extractJpeg_tables _ _ _ _ _).1]
  have hf : ((NewCamera mediaFile.GetCameraModel).FirstOrCreate
      (applyLocation env (extractJpeg env i db mediaFile photo).2.2 mediaFile
        (extractJpeg env i db mediaFile photo).1
        (extractJpeg env i db mediaFile photo).2.1).2.2).2.files = db.files := by
    rw [(camera_firstOrCreate_tables _ _).2, (applyLocation_tables _ _ _ _ _).2,
      (extractJpeg_tables _ _ _ _ _).2.1]
  refine ⟨?_, ?_, ?_, ?_⟩
  · simp only [createPhoto, hp]
  · simp only [createPhoto, hf]
  · simp only [createPhoto, hp]
  · simp only [createPhoto]
/-! ## Theorems: title synthesis -/

theorem applyLocation_some (env : Env) (db : DB) (mediaFile : MediaFile) (photo : Photo)
    (tags : List Tag) (location : Location) (hloc : mediaFile.GetLocation = some location) :
    (applyLocation env db mediaFile photo tags).1 =
      locationTitle { photo with Location := some (location.FirstOrCreate db).1 }
        (location.FirstOrCreate db).1 (formatYear mediaFile.GetDateCreated.Year) := by
  unfold applyLocation
  rw [hloc]

theorem applyLocation_none (env : Env) (db : DB) (mediaFile : MediaFile) (photo : Photo)
    (tags : List Tag) (hloc : mediaFile.GetLocation = none) :
    applyLocation env db mediaFile photo tags = (photo, tags, db) := by
  unfold applyLocation
  rw [hloc]

theorem locationTitle_tags (photo : Photo) (location : Location) (year : String) :
    (locationTitle photo location year).Tags = photo.Tags := by
  unfold locationTitle
  split_ifs <;> rfl

/-- The title the location rules give: the first non-empty of name, city and
county, with country and year. -/
theorem locationTitle_rule (photo : Photo) (location : Location) (year x : String)
    (hempty : photo.PhotoTitle = "")
    (hx : (location.LocName ≠ "" ∧ x = location.LocName) ∨
      (location.LocName = "" ∧ location.LocCity ≠ "" ∧ x = location.LocCity) ∨
      (location.LocName = "" ∧ location.LocCity = "" ∧ location.LocCounty ≠ "" ∧
        x = location.LocCounty)) :
    (locationTitle photo location year).PhotoTitle = sprintf3 x location.LocCountry year ∧
    (locationTitle photo location year).PhotoTitle ≠ "" := by
  have hne : ∀ a b c : String, sprintf3 a b c ≠ "" := by
    intro a b c h
    have := congrArg String.length h
    simp [sprintf3, String.length_append] at this
    have h2 : (" / " : String).length = 3 := by decide
    omega
  unfold locationTitle
  rcases hx with ⟨h1, rfl⟩ | ⟨h1, h2, rfl⟩ | ⟨h1, h2, h3, rfl⟩
  · simp [hempty, h1, hne]
  · simp [hempty, h1, h2, hne]
  · simp [hempty, h1, h2, h3, hne]

theorem locationTitle_none (photo : Photo) (location : Location) (year : String)
    (h : location.LocName = "" ∧ location.LocCity = "" ∧ location.LocCounty = "") :
    locationTitle photo location year = photo := by
  unfold locationTitle
  simp [h.1, h.2.1, h.2.2]

theorem createPhoto_title (env : Env) (i : Indexer) (db : DB) (now : Time)
    (mediaFile : MediaFile) (canonicalName : String) (photo : Photo) :
    (createPhoto env i db now mediaFile canonicalName photo).1.PhotoTitle =
      (fallbackTitle env mediaFile
        (applyLocation env (extractJpeg env i db mediaFile photo).2.2 mediaFile
          (extractJpeg env i db mediaFile photo).1
          (extractJpeg env i db mediaFile photo).2.1).1).PhotoTitle ∧
    (createPhoto env i db now mediaFile canonicalName photo).1.Tags =
      (applyLocation env (extractJpeg env i db mediaFile photo).2.2 mediaFile
          (extractJpeg env i db mediaFile photo).1
          (extractJpeg env i db mediaFile photo).2.1).2.1 := by
  simp only [createPhoto, and_self]

/-- A created photo with a location whose name, city or county is non-empty
gets the location title. -/
theorem createPhoto_title_location (env : Env) (i : Indexer) (db : DB) (now : Time)
    (mediaFile : MediaFile) (canonicalName : String) (location : Location) (x : String)
    (hloc : mediaFile.GetLocation = some location)
    (hx : ((location.FirstOrCreate db).1.LocName ≠ "" ∧
        x = (location.FirstOrCreate db).1.LocName) ∨
      ((location.FirstOrCreate db).1.LocName = "" ∧ (location.FirstOrCreate db).1.LocCity ≠ "" ∧
        x = (location.FirstOrCreate db).1.LocCity) ∨
      ((location.FirstOrCreate db).1.LocName = "" ∧ (location.FirstOrCreate db).1.LocCity = "" ∧
        (location.FirstOrCreate db).1.LocCounty ≠ "" ∧
        x = (location.FirstOrCreate db).1.LocCounty)) :
    (createPhoto env i db now mediaFile canonicalName Photo.zero).1.PhotoTitle =
      sprintf3 x (location.FirstOrCreate db).1.LocCountry
        (formatYear mediaFile.GetDateCreated.Year) := by
  rw [(createPhoto_title _ _ _ _ _ _ _).1, applyLocation_some _ _ _ _ _ location hloc]
  have hl : (location.FirstOrCreate (extractJpeg env i db mediaFile Photo.zero).2.2).1 =
      (location.FirstOrCreate db).1 :=
    location_firstOrCreate_congr _ _ _ (extractJpeg_tables _ _ _ _ _).2.2.2
  rw [hl]
  have ht : ({ (extractJpeg env i db mediaFile Photo.zero).1 with
      Location := some (location.FirstOrCreate db).1 } : Photo).PhotoTitle = "" := by
    show (extractJpeg env i db mediaFile Photo.zero).1.PhotoTitle = ""
    rw [(extractJpeg_title _ _ _ _ _).1]; rfl
  obtain ⟨h1, h2⟩ := locationTitle_rule _ (location.FirstOrCreate db).1
    (formatYear mediaFile.GetDateCreated.Year) x ht hx
  unfold fallbackTitle
  rw [if_neg h2, h1]

/-- A created photo for which no location rule produced a title gets the title
`Unknown / <year>`, whatever tags were aggregated. -/
theorem createPhoto_title_unknown (env : Env) (i : Indexer) (db : DB) (now : Time)
    (mediaFile : MediaFile) (canonicalName : String)
    (hloc : ∀ location, mediaFile.GetLocation = some location →
      (location.FirstOrCreate db).1.LocName = "" ∧ (location.FirstOrCreate db).1.LocCity = "" ∧
        (location.FirstOrCreate db).1.LocCounty = "") :
    (createPhoto env i db now mediaFile canonicalName Photo.zero).1.PhotoTitle =
      sprintf2 "Unknown" (formatYear mediaFile.GetDateCreated.Year) := by
  rw [(createPhoto_title _ _ _ _ _ _ _).1]
  have ht := extractJpeg_title env i db mediaFile Photo.zero
  cases hl : mediaFile.GetLocation with
  | none =>
    rw [applyLocation_none _ _ _ _ _ hl]
    unfold fallbackTitle
    simp only [ht.1, ht.2]
    simp [Photo.zero]
  | some location =>
    rw [applyLocation_some _ _ _ _ _ location hl]
    have hl2 : (location.FirstOrCreate (extractJpeg env i db mediaFile Photo.zero).2.2).1 =
        (location.FirstOrCreate db).1 :=
      location_firstOrCreate_congr _ _ _ (extractJpeg_tables _ _ _ _ _).2.2.2
    rw [hl2, locationTitle_none _ _ _ (hloc location hl)]
    unfold fallbackTitle
    simp only [ht.1, ht.2]
    simp [Photo.zero]
/-! ## Theorems: the two halves of `IndexMediaFile` -/

theorem reconcileFile_some (i : Indexer) (db : DB) (photoID : Nat) (mediaFile : MediaFile)
    (file : File)
    (h : findFile db mediaFile.GetHash (mediaFile.GetRelativeFilename i.originalsPath) =
      some file) :
    reconcileFile i db photoID mediaFile =
      ("Updated",
        fillFile file photoID
          (decidePrimary db photoID mediaFile (mediaFile.GetRelativeFilename i.originalsPath)
            mediaFile.GetHash)
          mediaFile (mediaFile.GetRelativeFilename i.originalsPath) mediaFile.GetHash,
        { db with files := db.files.map (fun r =>
            if r.ID = (fillFile file photoID
              (decidePrimary db photoID mediaFile
                (mediaFile.GetRelativeFilename i.originalsPath) mediaFile.GetHash)
              mediaFile (mediaFile.GetRelativeFilename i.originalsPath) mediaFile.GetHash).ID
            then fillFile file photoID
              (decidePrimary db photoID mediaFile
                (mediaFile.GetRelativeFilename i.originalsPath) mediaFile.GetHash)
              mediaFile (mediaFile.GetRelativeFilename i.originalsPath) mediaFile.GetHash
            else r) }) := by
  simp only [reconcileFile, h]

theorem reconcileFile_none (i : Indexer) (db : DB) (photoID : Nat) (mediaFile : MediaFile)
    (h : findFile db mediaFile.GetHash (mediaFile.GetRelativeFilename i.originalsPath) = none) :
    reconcileFile i db photoID mediaFile =
      ("Added",
        { fillFile File.zero photoID
            (decidePrimary db photoID mediaFile (mediaFile.GetRelativeFilename i.originalsPath)
              mediaFile.GetHash)
            mediaFile (mediaFile.GetRelativeFilename i.originalsPath) mediaFile.GetHash with
          ID := nextID (db.files.map File.ID) },
        { db with files := db.files ++ [{ fillFile File.zero photoID
            (decidePrimary db photoID mediaFile (mediaFile.GetRelativeFilename i.originalsPath)
              mediaFile.GetHash)
            mediaFile (mediaFile.GetRelativeFilename i.originalsPath) mediaFile.GetHash with
          ID := nextID (db.files.map File.ID) }] }) := by
  simp only [reconcileFile, h]

theorem reconcileFile_photos (i : Indexer) (db : DB) (photoID : Nat) (mediaFile : MediaFile) :
    (reconcileFile i db photoID mediaFile).2.2.photos = db.photos := by
  cases h : findFile db mediaFile.GetHash (mediaFile.GetRelativeFilename i.originalsPath) with
  | none => rw [reconcileFile_none _ _ _ _ h]
  | some file => rw [reconcileFile_some _ _ _ _ file h]

theorem reconcilePhoto_new (env : Env) (i : Indexer) (db : DB) (now : Time)
    (mediaFile : MediaFile)
    (hnew : db.photos.find?
      (fun r => r.PhotoCanonicalName == mediaFile.GetCanonicalNameFromFile) = none) :
    reconcilePhoto env i db now mediaFile =
      createPhoto env i db now mediaFile mediaFile.GetCanonicalNameFromFile Photo.zero := by
  simp only [reconcilePhoto, hnew]

theorem reconcilePhoto_stale (env : Env) (i : Indexer) (db : DB) (now : Time)
    (mediaFile : MediaFile) (photo : Photo)
    (hfound : db.photos.find?
      (fun r => r.PhotoCanonicalName == mediaFile.GetCanonicalNameFromFile) = some photo)
    (hstale : minutesGt10 (now.Sub photo.UpdatedAt) = true) :
    reconcilePhoto env i db now mediaFile = refreshPhoto db now mediaFile photo := by
  simp only [reconcilePhoto, hfound, hstale, if_true]

theorem reconcilePhoto_fresh (env : Env) (i : Indexer) (db : DB) (now : Time)
    (mediaFile : MediaFile) (photo : Photo)
    (hfound : db.photos.find?
      (fun r => r.PhotoCanonicalName == mediaFile.GetCanonicalNameFromFile) = some photo)
    (hfresh : minutesGt10 (now.Sub photo.UpdatedAt) = false) :
    reconcilePhoto env i db now mediaFile = (photo, db) := by
  simp only [reconcilePhoto, hfound, hfresh]
  rfl

theorem reconcilePhoto_files (env : Env) (i : Indexer) (db : DB) (now : Time)
    (mediaFile : MediaFile) : (reconcilePhoto env i db now mediaFile).2.files = db.files := by
  cases h : db.photos.find?
      (fun r => r.PhotoCanonicalName == mediaFile.GetCanonicalNameFromFile) with
  | none =>
    rw [reconcilePhoto_new _ _ _ _ _ h]
    exact (createPhoto_photos _ _ _ _ _ _ _).2.1
  | some photo =>
    cases hs : minutesGt10 (now.Sub photo.UpdatedAt) with
    | true => rw [reconcilePhoto_stale _ _ _ _ _ photo h hs]; rfl
    | false => rw [reconcilePhoto_fresh _ _ _ _ _ photo h hs]

theorem IndexMediaFile_photos (env : Env) (i : Indexer) (s : State) (mediaFile : MediaFile) :
    (IndexMediaFile env i s mediaFile).2.db.photos =
      (reconcilePhoto env i s.db (env.Now s.tick) mediaFile).2.photos := by
  simp only [IndexMediaFile, reconcileFile_photos]

theorem find?_append_new {α : Type} (p : α → Bool) (xs : List α) (x : α)
    (h : xs.find? p = none) (hx : p x = true) : (xs ++ [x]).find? p = some x := by
  rw [List.find?_append, h]
  simp [List.find?, hx]

/-- After a create, the photo found by the canonical name is the created one. -/
theorem IndexMediaFile_new_photo (env : Env) (i : Indexer) (s : State) (mediaFile : MediaFile)
    (hnew : s.db.photos.find?
      (fun r => r.PhotoCanonicalName == mediaFile.GetCanonicalNameFromFile) = none) :
    (IndexMediaFile env i s mediaFile).2.db.photos =
      s.db.photos ++ [(createPhoto env i s.db (env.Now s.tick) mediaFile
        mediaFile.GetCanonicalNameFromFile Photo.zero).1] ∧
    (IndexMediaFile env i s mediaFile).2.db.photos.find?
      (fun r => r.PhotoCanonicalName == mediaFile.GetCanonicalNameFromFile) =
      some (createPhoto env i s.db (env.Now s.tick) mediaFile
        mediaFile.GetCanonicalNameFromFile Photo.zero).1 := by
  have h1 : (IndexMediaFile env i s mediaFile).2.db.photos =
      s.db.photos ++ [(createPhoto env i s.db (env.Now s.tick) mediaFile
        mediaFile.GetCanonicalNameFromFile Photo.zero).1] := by
    rw [IndexMediaFile_photos, reconcilePhoto_new _ _ _ _ _ hnew]
    exact (createPhoto_photos _ _ _ _ _ _ _).1
  refine ⟨h1, ?_⟩
  rw [h1]
  apply find?_append_new _ _ _ hnew
  simp [(createPhoto_photos env i s.db (env.Now s.tick) mediaFile
    mediaFile.GetCanonicalNameFromFile Photo.zero).2.2.2]

/-- C9. Title location priority: a media file whose canonical name is not in
the store and whose location resolves to a place with a non-empty name, city
or county creates a photo titled `<x> / <country> / <year>`, where `x` is the
name if non-empty, otherwise the city if non-empty, otherwise the county;
classifier and location tags do not change this. -/
theorem title_location_priority (env : Env) (i : Indexer) (s : State) (mediaFile : MediaFile)
    (location : Location) (x : String)
    (hnew : s.db.photos.find?
      (fun r => r.PhotoCanonicalName == mediaFile.GetCanonicalNameFromFile) = none)
    (hloc : mediaFile.GetLocation = some location)
    (hx : ((location.FirstOrCreate s.db).1.LocName ≠ "" ∧
        x = (location.FirstOrCreate s.db).1.LocName) ∨
      ((location.FirstOrCreate s.db).1.LocName = "" ∧
        (location.FirstOrCreate s.db).1.LocCity ≠ "" ∧
        x = (location.FirstOrCreate s.db).1.LocCity) ∨
      ((location.FirstOrCreate s.db).1.LocName = "" ∧
        (location.FirstOrCreate s.db).1.LocCity = "" ∧
        (location.FirstOrCreate s.db).1.LocCounty ≠ "" ∧
        x = (location.FirstOrCreate s.db).1.LocCounty)) :
    (IndexMediaFile env i s mediaFile).2.db.photos.length = s.db.photos.length + 1 ∧
    ((IndexMediaFile env i s mediaFile).2.db.photos.find?
      (fun r => r.PhotoCanonicalName == mediaFile.GetCanonicalNameFromFile)).map
        Photo.PhotoTitle =
      some (x ++ " / " ++ (location.FirstOrCreate s.db).1.LocCountry ++ " / " ++
        formatYear mediaFile.GetDateCreated.Year) := by
  obtain ⟨h1, h2⟩ := IndexMediaFile_new_photo env i s mediaFile hnew
  refine ⟨by rw [h1]; simp, ?_⟩
  rw [h2, Option.map_some', createPhoto_title_location env i s.db _ mediaFile _ location x hloc hx]
  rfl

/-- C9, the example of the specification: city Lyon, country France, no name,
capture year 2021, with classifier and location tags present. -/
theorem title_location_priority_witness :
    lyonFile.GetLocation = some lyon ∧
    ((IndexMediaFile asciiEnv catIndexer ⟨DB.empty, 0⟩ lyonFile).2.db.photos.find?
      (fun r => r.PhotoCanonicalName == lyonFile.GetCanonicalNameFromFile)).map
        (fun r => r.Tags.map Tag.TagLabel) = some ["cat", "lyon", "france"] ∧
    ((IndexMediaFile asciiEnv catIndexer ⟨DB.empty, 0⟩ lyonFile).2.db.photos.find?
      (fun r => r.PhotoCanonicalName == lyonFile.GetCanonicalNameFromFile)).map
        Photo.PhotoTitle = some "Lyon / France / 2021" :=
  ⟨rfl, by decide,
    (title_location_priority asciiEnv catIndexer ⟨DB.empty, 0⟩ lyonFile lyon "Lyon"
      (by decide) rfl (by decide)).2.trans (by decide)⟩

/-- C3. A JPEG without location whose classifier reports `cat` with
probability 0.9, indexed into the empty store: the tag `cat` is aggregated and
stored, and the stored title is `Unknown / 2021`. -/
theorem title_ignores_tags_example :
    (IndexMediaFile asciiEnv catIndexer ⟨DB.empty, 0⟩ catFile).2.db.photos.map
      (fun r => (r.PhotoTitle, r.Tags.map Tag.TagLabel)) = [("Unknown / 2021", ["cat"])] := by
  decide
/-! ## Theorems: the primary flag -/

theorem fillFile_fields (file : File) (photoID : Nat) (isPrimary : Bool) (mediaFile : MediaFile)
    (relativeFileName fileHash : String) :
    (fillFile file photoID isPrimary mediaFile relativeFileName fileHash).ID = file.ID ∧
    (fillFile file photoID isPrimary mediaFile relativeFileName fileHash).PhotoID = photoID ∧
    (fillFile file photoID isPrimary mediaFile relativeFileName fileHash).FilePrimary =
      isPrimary ∧
    (fillFile file photoID isPrimary mediaFile relativeFileName fileHash).FileName =
      relativeFileName ∧
    (fillFile file photoID isPrimary mediaFile relativeFileName fileHash).FileHash = fileHash ∧
    (fillFile file photoID isPrimary mediaFile relativeFileName fileHash).FileType =
      mediaFile.GetType := by
  unfold fillFile
  split <;> simp

/-- The row `reconcileFile` returns: its fields and its place in the store. -/
theorem reconcileFile_row (i : Indexer) (db : DB) (photoID : Nat) (mediaFile : MediaFile) :
    (reconcileFile i db photoID mediaFile).2.1 ∈ (reconcileFile i db photoID mediaFile).2.2.files ∧
    (reconcileFile i db photoID mediaFile).2.1.PhotoID = photoID ∧
    (reconcileFile i db photoID mediaFile).2.1.FilePrimary =
      decidePrimary db photoID mediaFile (mediaFile.GetRelativeFilename i.originalsPath)
        mediaFile.GetHash ∧
    (reconcileFile i db photoID mediaFile).2.1.FileName =
      mediaFile.GetRelativeFilename i.originalsPath ∧
    (reconcileFile i db photoID mediaFile).2.1.FileHash = mediaFile.GetHash ∧
    (reconcileFile i db photoID mediaFile).2.1.FileType = mediaFile.GetType := by
  cases h : findFile db mediaFile.GetHash (mediaFile.GetRelativeFilename i.originalsPath) with
  | none =>
    rw [reconcileFile_none _ _ _ _ h]
    obtain ⟨-, h2, h3, h4, h5, h6⟩ := fillFile_fields File.zero photoID
      (decidePrimary db photoID mediaFile (mediaFile.GetRelativeFilename i.originalsPath)
        mediaFile.GetHash) mediaFile (mediaFile.GetRelativeFilename i.originalsPath)
      mediaFile.GetHash
    exact ⟨by simp, h2, h3, h4, h5, h6⟩
  | some file =>
    rw [reconcileFile_some _ _ _ _ file h]
    obtain ⟨h1, h2, h3, h4, h5, h6⟩ := fillFile_fields file photoID
      (decidePrimary db photoID mediaFile (mediaFile.GetRelativeFilename i.originalsPath)
        mediaFile.GetHash) mediaFile (mediaFile.GetRelativeFilename i.originalsPath)
      mediaFile.GetHash
    refine ⟨?_, h2, h3, h4, h5, h6⟩
    simp only [List.mem_map]
    exact ⟨file, List.mem_of_find?_eq_some h, by simp [h1]⟩

theorem decidePrimary_iff (db : DB) (photoID : Nat) (mediaFile : MediaFile)
    (relativeFileName fileHash : String) :
    decidePrimary db photoID mediaFile relativeFileName fileHash = true ↔
      mediaFile.GetType = "jpg" ∧
        ((∀ f ∈ db.files, ¬ (f.FileType = "jpg" ∧ f.FilePrimary = true ∧ f.PhotoID = photoID)) ∨
          ∃ primaryFile, findPrimaryFile db photoID = some primaryFile ∧
            (relativeFileName = primaryFile.FileName ∨ fileHash = primaryFile.FileHash)) := by
  unfold decidePrimary
  cases h : findPrimaryFile db photoID with
  | none =>
    have hall : ∀ f ∈ db.files,
        ¬ (f.FileType = "jpg" ∧ f.FilePrimary = true ∧ f.PhotoID = photoID) := by
      intro f hf
      have := List.find?_eq_none.mp h f hf
      simpa [and_assoc] using this
    simp only [FileTypeJpeg, beq_iff_eq]
    exact ⟨fun ht => ⟨ht, Or.inl hall⟩, fun hh => hh.1⟩
  | some primaryFile =>
    have hmem := List.mem_of_find?_eq_some h
    have hp := List.find?_some h
    have hnot : ¬ ∀ f ∈ db.files,
        ¬ (f.FileType = "jpg" ∧ f.FilePrimary = true ∧ f.PhotoID = photoID) := by
      intro hall
      apply hall primaryFile hmem
      simpa [and_assoc] using hp
    simp only [FileTypeJpeg, Bool.and_eq_true, Bool.or_eq_true, beq_iff_eq, Option.some.injEq]
    constructor
    · rintro ⟨ht, hm⟩
      exact ⟨ht, Or.inr ⟨primaryFile, rfl, hm⟩⟩
    · rintro ⟨ht, hall | ⟨pf, rfl, hm⟩⟩
      · exact absurd hall hnot
      · exact ⟨ht, hm⟩

/-- C6. Primary-flag decision: the File row written by `IndexMediaFile` belongs
to the photo, carries the observed relative path, content hash and type, and
has the primary flag exactly when the observed type is jpg and either the
photo has no File row with type jpg and primary flag true, or the observed
relative path equals the path of the current primary file, or the observed
content hash equals its hash. -/
theorem primary_flag_decision (env : Env) (i : Indexer) (s : State) (mediaFile : MediaFile) :
    IndexMediaFile.file env i s mediaFile ∈ (IndexMediaFile env i s mediaFile).2.db.files ∧
    (IndexMediaFile.file env i s mediaFile).PhotoID =
      (IndexMediaFile.photo env i s mediaFile).ID ∧
    (IndexMediaFile.file env i s mediaFile).FileName =
      mediaFile.GetRelativeFilename i.originalsPath ∧
    (IndexMediaFile.file env i s mediaFile).FileHash = mediaFile.GetHash ∧
    (IndexMediaFile.file env i s mediaFile).FileType = mediaFile.GetType ∧
    ((IndexMediaFile.file env i s mediaFile).FilePrimary = true ↔
      mediaFile.GetType = "jpg" ∧
        ((∀ f ∈ s.db.files, ¬ (f.FileType = "jpg" ∧ f.FilePrimary = true ∧
            f.PhotoID = (IndexMediaFile.photo env i s mediaFile).ID)) ∨
          ∃ primaryFile,
            s.db.files.find? (fun r => r.FileType == "jpg" && r.FilePrimary &&
              r.PhotoID == (IndexMediaFile.photo env i s mediaFile).ID) = some primaryFile ∧
            (mediaFile.GetRelativeFilename i.originalsPath = primaryFile.FileName ∨
              mediaFile.GetHash = primaryFile.FileHash))) := by
  obtain ⟨h1, h2, h3, h4, h5, h6⟩ := reconcileFile_row i
    (reconcilePhoto env i s.db (env.Now s.tick) mediaFile).2
    (reconcilePhoto env i s.db (env.Now s.tick) mediaFile).1.ID mediaFile
  refine ⟨h1, h2, h4, h5, h6, ?_⟩
  unfold IndexMediaFile.file IndexMediaFile.photo
  rw [h3, decidePrimary_iff]
  unfold findPrimaryFile
  rw [reconcilePhoto_files]
/-! ## Theorems: the staleness gate -/

theorem minutesGt10_sub (t u : Time) :
    minutesGt10 (t.Sub u) = true ↔ tenMinutes < t.UnixNano - u.UnixNano := by
  unfold minutesGt10 Time.Sub tenMinutes maxDuration minDuration
  simp only [decide_eq_true_eq]
  split_ifs <;> omega

theorem refreshPhoto_spec (db : DB) (now : Time) (mediaFile : MediaFile) (photo : Photo) :
    (refreshPhoto db now mediaFile photo).2.photos =
      db.photos.map (fun r => if r.ID = photo.ID then (refreshPhoto db now mediaFile photo).1
        else r) ∧
    (refreshPhoto db now mediaFile photo).1.ID = photo.ID ∧
    (refreshPhoto db now mediaFile photo).1.Tags = photo.Tags ∧
    (refreshPhoto db now mediaFile photo).1.PhotoTitle = photo.PhotoTitle ∧
    (refreshPhoto db now mediaFile photo).1.Location = photo.Location ∧
    (refreshPhoto db now mediaFile photo).1.Camera = photo.Camera ∧
    (refreshPhoto db now mediaFile photo).1.PhotoCanonicalName = photo.PhotoCanonicalName ∧
    (refreshPhoto db now mediaFile photo).1.UpdatedAt = now ∧
    (∀ jpeg, mediaFile.GetJpeg = some jpeg →
      (refreshPhoto db now mediaFile photo).1.PhotoColors = stringsJoin jpeg.GetColors.1 ", " ∧
      (refreshPhoto db now mediaFile photo).1.PhotoVibrantColor = jpeg.GetColors.2.1 ∧
      (refreshPhoto db now mediaFile photo).1.PhotoMutedColor = jpeg.GetColors.2.2 ∧
      (refreshPhoto db now mediaFile photo).1.PhotoPerceptualHash =
        if photo.PhotoPerceptualHash = "" then jpeg.GetPerceptualHash.getD ""
        else photo.PhotoPerceptualHash) ∧
    (mediaFile.GetJpeg = none →
      (refreshPhoto db now mediaFile photo).1 = { photo with UpdatedAt := now }) := by
  unfold refreshPhoto
  cases hj : mediaFile.GetJpeg with
  | none => simp
  | some jpeg =>
    by_cases hh : photo.PhotoPerceptualHash = ""
    · cases hp : jpeg.GetPerceptualHash <;> simp [hh, hp]
    · simp [hh]

/-- C5. Staleness gate: when the Photo with the canonical name was updated at
most ten minutes before the reconciliation, the photo table is left as it
was; when it was updated more than ten minutes before, its row is rewritten
with the colour names, vibrant and muted colour recomputed from the JPEG, the
perceptual hash recomputed only if it was empty, the update time set, and
tags, title, location, camera and canonical name as before (without a JPEG
only the update time changes). -/
theorem staleness_gate (env : Env) (i : Indexer) (s : State) (mediaFile : MediaFile)
    (photo : Photo)
    (hfound : s.db.photos.find?
      (fun r => r.PhotoCanonicalName == mediaFile.GetCanonicalNameFromFile) = some photo) :
    ((env.Now s.tick).UnixNano - photo.UpdatedAt.UnixNano ≤ tenMinutes →
      (IndexMediaFile env i s mediaFile).2.db.photos = s.db.photos) ∧
    (tenMinutes < (env.Now s.tick).UnixNano - photo.UpdatedAt.UnixNano →
      ∃ photo' : Photo,
        (IndexMediaFile env i s mediaFile).2.db.photos =
          s.db.photos.map (fun r => if r.ID = photo.ID then photo' else r) ∧
        photo'.ID = photo.ID ∧ photo'.Tags = photo.Tags ∧ photo'.PhotoTitle = photo.PhotoTitle ∧
        photo'.Location = photo.Location ∧ photo'.Camera = photo.Camera ∧
        photo'.PhotoCanonicalName = photo.PhotoCanonicalName ∧
        photo'.UpdatedAt = env.Now s.tick ∧
        (∀ jpeg, mediaFile.GetJpeg = some jpeg →
          photo'.PhotoColors = stringsJoin jpeg.GetColors.1 ", " ∧
          photo'.PhotoVibrantColor = jpeg.GetColors.2.1 ∧
          photo'.PhotoMutedColor = jpeg.GetColors.2.2 ∧
          photo'.PhotoPerceptualHash =
            if photo.PhotoPerceptualHash = "" then jpeg.GetPerceptualHash.getD ""
            else photo.PhotoPerceptualHash) ∧
        (mediaFile.GetJpeg = none → photo' = { photo with UpdatedAt := env.Now s.tick })) := by
  constructor
  · intro hfresh
    have hf : minutesGt10 ((env.Now s.tick).Sub photo.UpdatedAt) = false := by
      rw [Bool.eq_false_iff, Ne, minutesGt10_sub]
      omega
    rw [IndexMediaFile_photos, reconcilePhoto_fresh _ _ _ _ _ photo hfound hf]
  · intro hstale
    have hs : minutesGt10 ((env.Now s.tick).Sub photo.UpdatedAt) = true := by
      rw [minutesGt10_sub]; exact hstale
    refine ⟨(refreshPhoto s.db (env.Now s.tick) mediaFile photo).1, ?_⟩
    rw [IndexMediaFile_photos, reconcilePhoto_stale _ _ _ _ _ photo hfound hs]
    exact refreshPhoto_spec _ _ _ _
/-- C5 at nine and at eleven minutes: the photo of `rawStore` was written at
clock reading zero; reconciling `catFile` nine minutes later leaves the photo
table as it was, eleven minutes later the colours and the (empty) perceptual
hash are recomputed from the JPEG while the title stays. -/
theorem staleness_gate_witness :
    rawStore.photos.find?
      (fun r => r.PhotoCanonicalName == catFile.GetCanonicalNameFromFile) = some rawPhoto ∧
    (IndexMediaFile asciiEnv catIndexer ⟨rawStore, 9⟩ catFile).2.db.photos = rawStore.photos ∧
    ∃ photo' : Photo,
      (IndexMediaFile asciiEnv catIndexer ⟨rawStore, 11⟩ catFile).2.db.photos = [photo'] ∧
      photo'.PhotoColors = "red, grey" ∧ photo'.PhotoPerceptualHash = "ph" ∧
      photo'.PhotoTitle = "Unknown / 2021" ∧ photo'.Tags = [] := by
  have hfound : rawStore.photos.find?
      (fun r => r.PhotoCanonicalName == catFile.GetCanonicalNameFromFile) = some rawPhoto := by
    decide
  refine ⟨hfound, (staleness_gate asciiEnv catIndexer ⟨rawStore, 9⟩ catFile rawPhoto hfound).1
    (by decide), ?_⟩
  obtain ⟨photo', h1, -, htags, htitle, -, -, -, -, hj, -⟩ :=
    (staleness_gate asciiEnv catIndexer ⟨rawStore, 11⟩ catFile rawPhoto hfound).2 (by decide)
  obtain ⟨hc, -, -, hh⟩ := hj _ rfl
  refine ⟨photo', ?_, ?_, ?_, ?_, ?_⟩
  · rw [h1]
    have : rawStore.photos = [rawPhoto] := by decide
    simp [this]
  · rw [hc]; decide
  · rw [hh]; decide
  · rw [htitle]; rfl
  · rw [htags]; rfl
/-! ## Theorems: reconciling an observation again -/

/-- After a reconciliation the store holds a Photo with the canonical name. -/
theorem reconcilePhoto_found (env : Env) (i : Indexer) (db : DB) (now : Time)
    (mediaFile : MediaFile) :
    ∃ photo, (reconcilePhoto env i db now mediaFile).2.photos.find?
      (fun r => r.PhotoCanonicalName == mediaFile.GetCanonicalNameFromFile) = some photo := by
  rw [← Option.isSome_iff_exists, List.find?_isSome]
  cases h : db.photos.find?
      (fun r => r.PhotoCanonicalName == mediaFile.GetCanonicalNameFromFile) with
  | none =>
    rw [reconcilePhoto_new _ _ _ _ _ h]
    obtain ⟨h1, -, -, h4⟩ := createPhoto_photos env i db now mediaFile
      mediaFile.GetCanonicalNameFromFile Photo.zero
    exact ⟨(createPhoto env i db now mediaFile mediaFile.GetCanonicalNameFromFile Photo.zero).1,
      by rw [h1]; simp, by simp [h4]⟩
  | some photo =>
    have hmem := List.mem_of_find?_eq_some h
    have hp := List.find?_some h
    cases hs : minutesGt10 (now.Sub photo.UpdatedAt) with
    | false =>
      rw [reconcilePhoto_fresh _ _ _ _ _ photo h hs]
      exact ⟨photo, hmem, hp⟩
    | true =>
      rw [reconcilePhoto_stale _ _ _ _ _ photo h hs]
      obtain ⟨h1, -, -, -, -, -, h7, -⟩ := refreshPhoto_spec db now mediaFile photo
      refine ⟨(refreshPhoto db now mediaFile photo).1, ?_, by rw [h7]; exact hp⟩
      rw [h1, List.mem_map]
      exact ⟨photo, hmem, by simp⟩

/-- A reconciliation that finds the Photo adds no Photo row. -/
theorem reconcilePhoto_length_of_found (env : Env) (i : Indexer) (db : DB) (now : Time)
    (mediaFile : MediaFile) (photo : Photo)
    (h : db.photos.find?
      (fun r => r.PhotoCanonicalName == mediaFile.GetCanonicalNameFromFile) = some photo) :
    (reconcilePhoto env i db now mediaFile).2.photos.length = db.photos.length := by
  cases hs : minutesGt10 (now.Sub photo.UpdatedAt) with
  | false => rw [reconcilePhoto_fresh _ _ _ _ _ photo h hs]
  | true =>
    rw [reconcilePhoto_stale _ _ _ _ _ photo h hs, (refreshPhoto_spec db now mediaFile photo).1]
    simp

/-- After a reconciliation the file query of the observation finds a row. -/
theorem reconcileFile_found (i : Indexer) (db : DB) (photoID : Nat) (mediaFile : MediaFile) :
    ∃ file, findFile (reconcileFile i db photoID mediaFile).2.2 mediaFile.GetHash
      (mediaFile.GetRelativeFilename i.originalsPath) = some file := by
  unfold findFile
  rw [← Option.isSome_iff_exists, List.find?_isSome]
  obtain ⟨h1, -, -, -, h5, -⟩ := reconcileFile_row i db photoID mediaFile
  exact ⟨(reconcileFile i db photoID mediaFile).2.1, h1, by simp [h5]⟩

/-- A reconciliation that finds the File row reports `Updated` and adds no
File row. -/
theorem reconcileFile_of_found (i : Indexer) (db : DB) (photoID : Nat) (mediaFile : MediaFile)
    (file : File)
    (h : findFile db mediaFile.GetHash (mediaFile.GetRelativeFilename i.originalsPath) =
      some file) :
    (reconcileFile i db photoID mediaFile).1 = "Updated" ∧
    (reconcileFile i db photoID mediaFile).2.2.files.length = db.files.length := by
  rw [reconcileFile_some _ _ _ _ file h]
  simp

theorem IndexMediaFile_files (env : Env) (i : Indexer) (s : State) (mediaFile : MediaFile) :
    (IndexMediaFile env i s mediaFile).2.db =
      (reconcileFile i (reconcilePhoto env i s.db (env.Now s.tick) mediaFile).2
        (reconcilePhoto env i s.db (env.Now s.tick) mediaFile).1.ID mediaFile).2.2 ∧
    (IndexMediaFile env i s mediaFile).1 =
      (reconcileFile i (reconcilePhoto env i s.db (env.Now s.tick) mediaFile).2
        (reconcilePhoto env i s.db (env.Now s.tick) mediaFile).1.ID mediaFile).1 :=
  ⟨rfl, rfl⟩

theorem findFile_congr (db db' : DB) (h : db'.files = db.files) (fileHash name : String) :
    findFile db' fileHash name = findFile db fileHash name := by
  unfold findFile
  rw [h]

/-- After `IndexMediaFile` both queries of the observation find a row. -/
theorem IndexMediaFile_found (env : Env) (i : Indexer) (s : State) (mediaFile : MediaFile) :
    (∃ photo, (IndexMediaFile env i s mediaFile).2.db.photos.find?
      (fun r => r.PhotoCanonicalName == mediaFile.GetCanonicalNameFromFile) = some photo) ∧
    ∃ file, findFile (IndexMediaFile env i s mediaFile).2.db mediaFile.GetHash
      (mediaFile.GetRelativeFilename i.originalsPath) = some file := by
  constructor
  · rw [IndexMediaFile_photos]
    exact reconcilePhoto_found _ _ _ _ _
  · rw [(IndexMediaFile_files _ _ _ _).1]
    exact reconcileFile_found _ _ _ _

/-- When both queries of an observation find a row, `IndexMediaFile` reports
`Updated` and adds no row to either table. -/
theorem IndexMediaFile_of_found (env : Env) (i : Indexer) (s : State) (mediaFile : MediaFile)
    (photo : Photo) (file : File)
    (hp : s.db.photos.find?
      (fun r => r.PhotoCanonicalName == mediaFile.GetCanonicalNameFromFile) = some photo)
    (hf : findFile s.db mediaFile.GetHash (mediaFile.GetRelativeFilename i.originalsPath) =
      some file) :
    (IndexMediaFile env i s mediaFile).1 = "Updated" ∧
    (IndexMediaFile env i s mediaFile).2.db.photos.length = s.db.photos.length ∧
    (IndexMediaFile env i s mediaFile).2.db.files.length = s.db.files.length := by
  have hf' : findFile (reconcilePhoto env i s.db (env.Now s.tick) mediaFile).2 mediaFile.GetHash
      (mediaFile.GetRelativeFilename i.originalsPath) = some file := by
    rw [findFile_congr _ _ (reconcilePhoto_files _ _ _ _ _)]; exact hf
  obtain ⟨h1, h2⟩ := reconcileFile_of_found i _
    (reconcilePhoto env i s.db (env.Now s.tick) mediaFile).1.ID mediaFile file hf'
  refine ⟨?_, ?_, ?_⟩
  · rw [(IndexMediaFile_files _ _ _ _).2]; exact h1
  · rw [IndexMediaFile_photos]; exact reconcilePhoto_length_of_found _ _ _ _ _ photo hp
  · rw [(IndexMediaFile_files _ _ _ _).1, h2, reconcilePhoto_files]

/-- Reconciling the same observation a second time reports `Updated` and adds
no Photo row and no File row. -/
theorem IndexMediaFile_twice (env : Env) (i : Indexer) (s : State) (mediaFile : MediaFile) :
    (IndexMediaFile env i (IndexMediaFile env i s mediaFile).2 mediaFile).1 = "Updated" ∧
    (IndexMediaFile env i (IndexMediaFile env i s mediaFile).2 mediaFile).2.db.photos.length =
      (IndexMediaFile env i s mediaFile).2.db.photos.length ∧
    (IndexMediaFile env i (IndexMediaFile env i s mediaFile).2 mediaFile).2.db.files.length =
      (IndexMediaFile env i s mediaFile).2.db.files.length := by
  obtain ⟨⟨photo, hp⟩, ⟨file, hf⟩⟩ := IndexMediaFile_found env i s mediaFile
  exact IndexMediaFile_of_found env i _ mediaFile photo file hp hf
/-! ## Theorems: the order of reconciliations -/

theorem indexEach_append (env : Env) (i : Indexer) (s : State) (xs ys : List MediaFile) :
    indexEach env i s (xs ++ ys) = indexEach env i (indexEach env i s xs) ys := by
  simp [indexEach, List.foldl_append]

theorem indexEach_cons (env : Env) (i : Indexer) (s : State) (x : MediaFile)
    (xs : List MediaFile) :
    indexEach env i s (x :: xs) = indexEach env i (IndexMediaFile env i s x).2 xs := rfl

/-- The loop of `IndexRelated` reconciles the unmarked files in order and
marks every filename of the list. -/
theorem indexRelatedLoop_eq (env : Env) (i : Indexer) (relatedFiles : List MediaFile)
    (indexed : Finset String) (s : State) :
    indexRelatedLoop env i relatedFiles (indexed, s) =
      (indexed ∪ (relatedFiles.map MediaFile.filename).toFinset,
        indexEach env i s (unmarked relatedFiles indexed)) := by
  induction relatedFiles generalizing indexed s with
  | nil => simp [indexRelatedLoop, unmarked, indexEach]
  | cons m rest ih =>
    by_cases hm : m.filename ∈ indexed
    · rw [indexRelatedLoop, if_pos hm, ih, unmarked, if_pos hm]
      congr 1
      ext f
      simp only [List.map_cons, List.toFinset_cons, Finset.mem_union, Finset.mem_insert]
      constructor
      · rintro (h | h)
        · exact Or.inl h
        · exact Or.inr (Or.inr h)
      · rintro (h | rfl | h)
        · exact Or.inl h
        · exact Or.inl hm
        · exact Or.inr h
    · rw [indexRelatedLoop, if_neg hm, ih, unmarked, if_neg hm, indexEach_cons]
      congr 1
      ext f
      simp only [List.map_cons, List.toFinset_cons, Finset.mem_union, Finset.mem_insert]
      tauto

/-- `IndexRelated` returns the filenames of the group and makes the
reconciliations of `groupOrder`. -/
theorem IndexRelated_eq (env : Env) (i : Indexer) (s : State) (mediaFile : MediaFile) :
    IndexRelated env i s mediaFile =
      (groupNames env mediaFile, indexEach env i s (groupOrder env mediaFile)) := by
  unfold IndexRelated groupNames groupOrder
  cases h : env.GetRelatedFiles mediaFile with
  | none => simp [indexEach]
  | some g =>
    obtain ⟨relatedFiles, mainFile⟩ := g
    simp only [indexRelatedLoop_eq, indexEach_cons]
    congr 1

theorem indexAllStep_eq (env : Env) (i : Indexer) (s : State)
    (acc : Finset String × List MediaFile) (e : WalkEntry) :
    indexAllStep env i (acc.1, indexEach env i s acc.2) e =
      ((walkOrderStep env acc e).1, indexEach env i s (walkOrderStep env acc e).2) := by
  unfold indexAllStep walkOrderStep
  by_cases h1 : e.err = true ∨ e.filename ∈ acc.1
  · simp only [h1, if_true]
  · simp only [h1, if_false]
    by_cases h2 : e.IsDir = true ∨ hasDotPrefix (filepathBase e.filename) = true
    · simp only [h2, if_true]
    · simp only [h2, if_false]
      cases h3 : env.NewMediaFile e.filename with
      | none => simp only
      | some mediaFile =>
        simp only
        cases h4 : mediaFile.IsPhoto with
        | false => simp
        | true => simp [IndexRelated_eq, indexEach_append]

/-- `IndexAll` makes the reconciliations of `walkOrder`, which do not depend on
the store. -/
theorem IndexAll_eq (env : Env) (i : Indexer) (s : State) :
    (IndexAll env i s).2 = indexEach env i s (walkOrder env i) := by
  unfold IndexAll walkOrder
  suffices h : ∀ (es : List WalkEntry) (acc : Finset String × List MediaFile),
      es.foldl (indexAllStep env i) (acc.1, indexEach env i s acc.2) =
        ((es.foldl (walkOrderStep env) acc).1,
          indexEach env i s (es.foldl (walkOrderStep env) acc).2) by
    have := h (env.Walk i.originalsPath) (∅, [])
    simp only [indexEach, List.foldl_nil] at this ⊢
    rw [this]
  intro es
  induction es with
  | nil => intro acc; rfl
  | cons e rest ih =>
    intro acc
    simp only [List.foldl_cons]
    rw [indexAllStep_eq, ih]
theorem unmarked_sublist (relatedFiles : List MediaFile) (marked : Finset String) :
    (unmarked relatedFiles marked).Sublist relatedFiles := by
  induction relatedFiles generalizing marked with
  | nil => simp [unmarked]
  | cons m rest ih =>
    unfold unmarked
    split
    · exact (ih marked).cons m
    · exact (ih _).cons₂ m

theorem unmarked_names (relatedFiles : List MediaFile) (marked : Finset String) (f : String) :
    f ∈ (unmarked relatedFiles marked).map MediaFile.filename ↔
      f ∈ relatedFiles.map MediaFile.filename ∧ f ∉ marked := by
  induction relatedFiles generalizing marked with
  | nil => simp [unmarked]
  | cons m rest ih =>
    unfold unmarked
    by_cases hm : m.filename ∈ marked
    · rw [if_pos hm, ih]
      simp only [List.map_cons, List.mem_cons]
      constructor
      · rintro ⟨h1, h2⟩; exact ⟨Or.inr h1, h2⟩
      · rintro ⟨rfl | h1, h2⟩
        · exact absurd hm h2
        · exact ⟨h1, h2⟩
    · rw [if_neg hm]
      simp only [List.map_cons, List.mem_cons, ih, Finset.mem_insert]
      constructor
      · rintro (rfl | ⟨h1, h2⟩)
        · exact ⟨Or.inl rfl, hm⟩
        · exact ⟨Or.inr h1, fun h => h2 (Or.inr h)⟩
      · rintro ⟨rfl | h1, h2⟩
        · exact Or.inl rfl
        · by_cases hf : f = m.filename
          · exact Or.inl hf
          · exact Or.inr ⟨h1, fun h => h.elim hf h2⟩

theorem unmarked_nodup (relatedFiles : List MediaFile) (marked : Finset String) :
    ((unmarked relatedFiles marked).map MediaFile.filename).Nodup := by
  induction relatedFiles generalizing marked with
  | nil => simp [unmarked]
  | cons m rest ih =>
    unfold unmarked
    split
    · exact ih marked
    · rw [List.map_cons, List.nodup_cons]
      refine ⟨?_, ih _⟩
      rw [unmarked_names]
      simp

theorem unmarked_first (relatedFiles : List MediaFile) (marked : Finset String) :
    ∀ m ∈ unmarked relatedFiles marked,
      relatedFiles.find? (fun r => r.filename == m.filename) = some m := by
  induction relatedFiles generalizing marked with
  | nil => simp [unmarked]
  | cons x rest ih =>
    intro m hm
    unfold unmarked at hm
    by_cases hx : x.filename ∈ marked
    · rw [if_pos hx] at hm
      have hne : x.filename ≠ m.filename := by
        intro he
        have := (unmarked_names rest marked m.filename).mp (List.mem_map_of_mem _ hm)
        exact this.2 (he ▸ hx)
      rw [List.find?_cons_of_neg _ (by simpa using hne)]
      exact ih marked m hm
    · rw [if_neg hx, List.mem_cons] at hm
      rcases hm with rfl | hm
      · simp
      · have hne : x.filename ≠ m.filename := by
          intro he
          have := (unmarked_names rest _ m.filename).mp (List.mem_map_of_mem _ hm)
          exact this.2 (by simp [he])
        rw [List.find?_cons_of_neg _ (by simpa using hne)]
        exact ih _ m hm

/-- C10. Exactly-once reconciliation per group: when grouping succeeds,
`IndexRelated` reconciles the main file first and then, in list order, the
related files whose filename is not yet marked (each of them the first file
of the list with its filename); no filename is reconciled twice, every
filename of the group is reconciled, and the returned set is the filenames of
the main file and the related files.  When grouping fails the state is
unchanged and the returned set is empty. -/
theorem exactly_once_per_group (env : Env) (i : Indexer) (s : State) (mediaFile : MediaFile) :
    (∀ relatedFiles mainFile, env.GetRelatedFiles mediaFile = some (relatedFiles, mainFile) →
      (IndexRelated env i s mediaFile).2 =
        indexEach env i (IndexMediaFile env i s mainFile).2
          (unmarked relatedFiles {mainFile.filename}) ∧
      (unmarked relatedFiles {mainFile.filename}).Sublist relatedFiles ∧
      (∀ m ∈ unmarked relatedFiles {mainFile.filename},
        relatedFiles.find? (fun r => r.filename == m.filename) = some m) ∧
      ((mainFile :: unmarked relatedFiles {mainFile.filename}).map MediaFile.filename).Nodup ∧
      (∀ f, f ∈ (mainFile :: unmarked relatedFiles {mainFile.filename}).map MediaFile.filename ↔
        f = mainFile.filename ∨ f ∈ relatedFiles.map MediaFile.filename) ∧
      (∀ f, f ∈ (IndexRelated env i s mediaFile).1 ↔
        f = mainFile.filename ∨ f ∈ relatedFiles.map MediaFile.filename)) ∧
    (env.GetRelatedFiles mediaFile = none → IndexRelated env i s mediaFile = (∅, s)) := by
  constructor
  · intro relatedFiles mainFile hg
    rw [IndexRelated_eq]
    simp only [groupOrder, groupNames, hg]
    refine ⟨rfl, unmarked_sublist _ _, unmarked_first _ _, ?_, ?_, ?_⟩
    · rw [List.map_cons, List.nodup_cons]
      refine ⟨?_, unmarked_nodup _ _⟩
      rw [unmarked_names]
      simp
    · intro f
      rw [List.map_cons, List.mem_cons, unmarked_names]
      simp only [Finset.mem_singleton]
      tauto
    · intro f
      simp
  · intro hg
    rw [IndexRelated_eq]
    simp [groupOrder, groupNames, hg, indexEach]
/-! ## Theorems: a second run over an unchanged tree -/

theorem lt_nextID (ids : List Nat) : ∀ x ∈ ids, x < nextID ids := by
  induction ids with
  | nil => simp
  | cons a rest ih =>
    intro x hx
    simp only [nextID, List.foldr_cons] at ih ⊢
    rcases List.mem_cons.mp hx with rfl | h
    · omega
    · have := ih x h
      omega

theorem findFile_some_iff (db : DB) (fileHash name : String) (file : File)
    (h : findFile db fileHash name = some file) :
    file ∈ db.files ∧ (file.FileHash = fileHash ∨ file.FileName = name) := by
  unfold findFile at h
  refine ⟨List.mem_of_find?_eq_some h, ?_⟩
  simpa using List.find?_some h

/-- Rewriting the rows that carry the key of a found row keeps every covered
hash covered. -/
theorem covers_save (i : Indexer) (run : List MediaFile) (files : List File) (file new : File)
    (m : MediaFile) (hm : m ∈ run) (hone : OneHashPerPath i run)
    (hmem : file ∈ files)
    (hmatch : file.FileHash = m.GetHash ∨
      file.FileName = m.GetRelativeFilename i.originalsPath)
    (hid : new.ID = file.ID) (hhash : new.FileHash = m.GetHash)
    (hname : new.FileName = m.GetRelativeFilename i.originalsPath) :
    Covers i run (files.map (fun r => if r.ID = new.ID then new else r)) m.GetHash ∧
    ∀ h, Covers i run files h →
      Covers i run (files.map (fun r => if r.ID = new.ID then new else r)) h := by
  have hnewmem : new ∈ files.map (fun r => if r.ID = new.ID then new else r) :=
    List.mem_map.mpr ⟨file, hmem, by simp [hid]⟩
  have hnewcons : ∀ m' ∈ run, m'.GetRelativeFilename i.originalsPath = new.FileName →
      m'.GetHash = new.FileHash := by
    intro m' hm' he
    rw [hhash]
    exact hone m' hm' m hm (by rw [he, hname])
  have hnewsame : ∀ r' ∈ files.map (fun r => if r.ID = new.ID then new else r),
      r'.ID = new.ID → r' = new := by
    intro r' hr' he
    obtain ⟨x, -, rfl⟩ := List.mem_map.mp hr'
    by_cases hx : x.ID = new.ID
    · simp [hx]
    · rw [if_neg hx] at he
      exact absurd he hx
  have hnew : Covers i run (files.map (fun r => if r.ID = new.ID then new else r)) m.GetHash :=
    ⟨new, hnewmem, hhash, hnewcons, hnewsame⟩
  refine ⟨hnew, ?_⟩
  rintro h ⟨r, hr, hrh, hrcons, hrsame⟩
  by_cases hrid : r.ID = new.ID
  · have hrf : file = r := hrsame file hmem (by rw [← hid, hrid])
    subst hrf
    have : h = m.GetHash := by
      rw [← hrh]
      rcases hmatch with h1 | h1
      · exact h1
      · exact (hrcons m hm h1.symm).symm
    rw [this]
    exact hnew
  · refine ⟨r, List.mem_map.mpr ⟨r, hr, by simp [hrid]⟩, hrh, hrcons, ?_⟩
    intro r' hr' he
    obtain ⟨x, hx, rfl⟩ := List.mem_map.mp hr'
    by_cases hxid : x.ID = new.ID
    · rw [if_pos hxid] at he
      exact absurd he.symm hrid
    · rw [if_neg hxid] at he ⊢
      exact hrsame x hx he

/-- Appending a row under a fresh key keeps every covered hash covered. -/
theorem covers_create (i : Indexer) (run : List MediaFile) (files : List File) (new : File)
    (m : MediaFile) (hm : m ∈ run) (hone : OneHashPerPath i run)
    (hid : new.ID = nextID (files.map File.ID)) (hhash : new.FileHash = m.GetHash)
    (hname : new.FileName = m.GetRelativeFilename i.originalsPath) :
    Covers i run (files ++ [new]) m.GetHash ∧
    ∀ h, Covers i run files h → Covers i run (files ++ [new]) h := by
  have hfresh : ∀ r ∈ files, r.ID ≠ new.ID := by
    intro r hr
    have := lt_nextID (files.map File.ID) r.ID (List.mem_map_of_mem _ hr)
    omega
  constructor
  · refine ⟨new, by simp, hhash, ?_, ?_⟩
    · intro m' hm' he
      rw [hhash]
      exact hone m' hm' m hm (by rw [he, hname])
    · intro r' hr' he
      rcases List.mem_append.mp hr' with h1 | h1
      · exact absurd he (hfresh r' h1)
      · simpa using h1
  · rintro h ⟨r, hr, hrh, hrcons, hrsame⟩
    refine ⟨r, List.mem_append_left _ hr, hrh, hrcons, ?_⟩
    intro r' hr' he
    rcases List.mem_append.mp hr' with h1 | h1
    · exact hrsame r' h1 he
    · have : r' = new := by simpa using h1
      subst this
      exact absurd he.symm (hfresh r hr)

/-- The file half covers the hash of its media file and keeps every covered
hash covered. -/
theorem reconcileFile_covers (i : Indexer) (run : List MediaFile) (db : DB) (photoID : Nat)
    (m : MediaFile) (hm : m ∈ run) (hone : OneHashPerPath i run) :
    Covers i run (reconcileFile i db photoID m).2.2.files m.GetHash ∧
    ∀ h, Covers i run db.files h → Covers i run (reconcileFile i db photoID m).2.2.files h := by
  cases hf : findFile db m.GetHash (m.GetRelativeFilename i.originalsPath) with
  | none =>
    rw [reconcileFile_none _ _ _ _ hf]
    obtain ⟨-, -, -, h4, h5, -⟩ := fillFile_fields File.zero photoID
      (decidePrimary db photoID m (m.GetRelativeFilename i.originalsPath) m.GetHash) m
      (m.GetRelativeFilename i.originalsPath) m.GetHash
    exact covers_create i run db.files _ m hm hone rfl h5 h4
  | some file =>
    rw [reconcileFile_some _ _ _ _ file hf]
    obtain ⟨h1, -, -, h4, h5, -⟩ := fillFile_fields file photoID
      (decidePrimary db photoID m (m.GetRelativeFilename i.originalsPath) m.GetHash) m
      (m.GetRelativeFilename i.originalsPath) m.GetHash
    obtain ⟨hmem, hmatch⟩ := findFile_some_iff _ _ _ _ hf
    exact covers_save i run db.files file _ m hm hone hmem hmatch h1 h5 h4

/-- The photo half keeps the keys of the photo table distinct. -/
theorem reconcilePhoto_nodup (env : Env) (i : Indexer) (db : DB) (now : Time) (m : MediaFile)
    (hnd : (db.photos.map Photo.ID).Nodup) :
    ((reconcilePhoto env i db now m).2.photos.map Photo.ID).Nodup := by
  cases h : db.photos.find?
      (fun r => r.PhotoCanonicalName == m.GetCanonicalNameFromFile) with
  | none =>
    obtain ⟨h1, -, h3, -⟩ := createPhoto_photos env i db now m m.GetCanonicalNameFromFile
      Photo.zero
    rw [reconcilePhoto_new _ _ _ _ _ h, h1, List.map_append, List.map_singleton, h3]
    refine List.Nodup.append hnd (List.nodup_singleton _) ?_
    intro x hx hx'
    have := lt_nextID _ x hx
    simp only [List.mem_singleton] at hx'
    omega
  | some photo =>
    cases hs : minutesGt10 (now.Sub photo.UpdatedAt) with
    | false => rw [reconcilePhoto_fresh _ _ _ _ _ photo h hs]; exact hnd
    | true =>
      obtain ⟨h1, h2, -⟩ := refreshPhoto_spec db now m photo
      rw [reconcilePhoto_stale _ _ _ _ _ photo h hs, h1, List.map_map]
      have : (Photo.ID ∘ fun r => if r.ID = photo.ID then (refreshPhoto db now m photo).1
          else r) = Photo.ID := by
        funext r
        by_cases hr : r.ID = photo.ID
        · simp [hr, h2]
        · simp [hr]
      rw [this]
      exact hnd

/-- The photo half leaves a Photo with the canonical name of its media file
and, when keys are distinct, keeps every canonical name that had a Photo. -/
theorem reconcilePhoto_names (env : Env) (i : Indexer) (db : DB) (now : Time) (m : MediaFile)
    (hnd : (db.photos.map Photo.ID).Nodup) :
    (∃ p ∈ (reconcilePhoto env i db now m).2.photos,
      p.PhotoCanonicalName = m.GetCanonicalNameFromFile) ∧
    ∀ c, (∃ p ∈ db.photos, p.PhotoCanonicalName = c) →
      ∃ p ∈ (reconcilePhoto env i db now m).2.photos, p.PhotoCanonicalName = c := by
  constructor
  · obtain ⟨p, hp⟩ := reconcilePhoto_found env i db now m
    exact ⟨p, List.mem_of_find?_eq_some hp, by simpa using List.find?_some hp⟩
  · rintro c ⟨p, hp, hc⟩
    cases h : db.photos.find?
        (fun r => r.PhotoCanonicalName == m.GetCanonicalNameFromFile) with
    | none =>
      rw [reconcilePhoto_new _ _ _ _ _ h, (createPhoto_photos _ _ _ _ _ _ _).1]
      exact ⟨p, List.mem_append_left _ hp, hc⟩
    | some photo =>
      cases hs : minutesGt10 (now.Sub photo.UpdatedAt) with
      | false =>
        rw [reconcilePhoto_fresh _ _ _ _ _ photo h hs]
        exact ⟨p, hp, hc⟩
      | true =>
        rw [reconcilePhoto_stale _ _ _ _ _ photo h hs]
        obtain ⟨h1, -, -, -, -, -, h7, -⟩ := refreshPhoto_spec db now m photo
        rw [h1]
        by_cases hid : p.ID = photo.ID
        · have hpp : p = photo :=
            List.inj_on_of_nodup_map hnd hp (List.mem_of_find?_eq_some h) hid
          refine ⟨(refreshPhoto db now m photo).1, List.mem_map.mpr ⟨p, hp, by simp [hid]⟩, ?_⟩
          rw [h7, ← hpp, hc]
        · exact ⟨p, List.mem_map.mpr ⟨p, hp, by simp [hid]⟩, hc⟩

/-- `IndexMediaFile` makes its media file known and keeps known media files
known and the photo keys distinct. -/
theorem IndexMediaFile_known (env : Env) (i : Indexer) (run : List MediaFile) (s : State)
    (m : MediaFile) (hm : m ∈ run) (hone : OneHashPerPath i run)
    (hnd : (s.db.photos.map Photo.ID).Nodup) :
    ((IndexMediaFile env i s m).2.db.photos.map Photo.ID).Nodup ∧
    Known i run (IndexMediaFile env i s m).2.db m ∧
    ∀ m', Known i run s.db m' → Known i run (IndexMediaFile env i s m).2.db m' := by
  obtain ⟨hp1, hp2⟩ := reconcilePhoto_names env i s.db (env.Now s.tick) m hnd
  obtain ⟨hf1, hf2⟩ := reconcileFile_covers i run
    (reconcilePhoto env i s.db (env.Now s.tick) m).2
    (reconcilePhoto env i s.db (env.Now s.tick) m).1.ID m hm hone
  rw [reconcilePhoto_files] at hf2
  refine ⟨?_, ⟨?_, ?_⟩, ?_⟩
  · rw [IndexMediaFile_photos]
    exact reconcilePhoto_nodup env i s.db _ m hnd
  · rw [IndexMediaFile_photos]; exact hp1
  · rw [(IndexMediaFile_files _ _ _ _).1]; exact hf1
  · rintro m' ⟨hk1, hk2⟩
    refine ⟨?_, ?_⟩
    · rw [IndexMediaFile_photos]; exact hp2 _ hk1
    · rw [(IndexMediaFile_files _ _ _ _).1]; exact hf2 _ hk2

/-- A known media file is found by both queries. -/
theorem known_found (i : Indexer) (run : List MediaFile) (db : DB) (m : MediaFile)
    (h : Known i run db m) :
    (∃ photo, db.photos.find?
      (fun r => r.PhotoCanonicalName == m.GetCanonicalNameFromFile) = some photo) ∧
    ∃ file, findFile db m.GetHash (m.GetRelativeFilename i.originalsPath) = some file := by
  obtain ⟨⟨p, hp, hc⟩, ⟨r, hr, hh, -, -⟩⟩ := h
  constructor
  · rw [← Option.isSome_iff_exists, List.find?_isSome]
    exact ⟨p, hp, by simp [hc]⟩
  · unfold findFile
    rw [← Option.isSome_iff_exists, List.find?_isSome]
    exact ⟨r, hr, by simp [hh]⟩

/-- A run makes all its media files known. -/
theorem indexEach_known (env : Env) (i : Indexer) (run : List MediaFile)
    (hone : OneHashPerPath i run) (part : List MediaFile) (hsub : ∀ m ∈ part, m ∈ run)
    (s : State) (hnd : (s.db.photos.map Photo.ID).Nodup) :
    ((indexEach env i s part).db.photos.map Photo.ID).Nodup ∧
    (∀ m ∈ part, Known i run (indexEach env i s part).db m) ∧
    ∀ m', Known i run s.db m' → Known i run (indexEach env i s part).db m' := by
  induction part generalizing s with
  | nil => exact ⟨hnd, by simp, fun _ h => h⟩
  | cons x rest ih =>
    obtain ⟨h1, h2, h3⟩ := IndexMediaFile_known env i run s x (hsub x (by simp)) hone hnd
    obtain ⟨ih1, ih2, ih3⟩ := ih (fun m hm => hsub m (by simp [hm]))
      (IndexMediaFile env i s x).2 h1
    rw [indexEach_cons]
    refine ⟨ih1, ?_, fun m' hm' => ih3 m' (h3 m' hm')⟩
    intro m hm
    rcases List.mem_cons.mp hm with rfl | hm
    · exact ih3 _ h2
    · exact ih2 m hm

/-- A run over known media files adds no row to either table. -/
theorem indexEach_of_known (env : Env) (i : Indexer) (run : List MediaFile)
    (hone : OneHashPerPath i run) (part : List MediaFile) (hsub : ∀ m ∈ part, m ∈ run)
    (s : State) (hnd : (s.db.photos.map Photo.ID).Nodup)
    (hknown : ∀ m ∈ run, Known i run s.db m) :
    (indexEach env i s part).db.photos.length = s.db.photos.length ∧
    (indexEach env i s part).db.files.length = s.db.files.length := by
  induction part generalizing s with
  | nil => exact ⟨rfl, rfl⟩
  | cons x rest ih =>
    have hx : x ∈ run := hsub x (by simp)
    obtain ⟨⟨photo, hp⟩, ⟨file, hf⟩⟩ := known_found i run s.db x (hknown x hx)
    obtain ⟨-, e2, e3⟩ := IndexMediaFile_of_found env i s x photo file hp hf
    obtain ⟨h1, -, h3⟩ := IndexMediaFile_known env i run s x hx hone hnd
    obtain ⟨ih1, ih2⟩ := ih (fun m hm => hsub m (by simp [hm])) (IndexMediaFile env i s x).2 h1
      (fun m hm => h3 m (hknown m hm))
    rw [indexEach_cons, ih1, ih2, e2, e3]
    exact ⟨rfl, rfl⟩

/-- A second run of `IndexAll` over an unchanged tree adds no row. -/
theorem IndexAll_second_run (env : Env) (i : Indexer) (s : State)
    (hone : OneHashPerPath i (walkOrder env i)) (hnd : (s.db.photos.map Photo.ID).Nodup) :
    (IndexAll env i (IndexAll env i s).2).2.db.photos.length =
      (IndexAll env i s).2.db.photos.length ∧
    (IndexAll env i (IndexAll env i s).2).2.db.files.length =
      (IndexAll env i s).2.db.files.length := by
  rw [IndexAll_eq env i (IndexAll env i s).2, IndexAll_eq env i s]
  obtain ⟨h1, h2, -⟩ := indexEach_known env i (walkOrder env i) hone (walkOrder env i)
    (fun _ h => h) s hnd
  exact indexEach_of_known env i (walkOrder env i) hone (walkOrder env i) (fun _ h => h) _ h1 h2
/-! ## Theorems: a JPEG with its RAW sibling -/

theorem unmarked_all_marked (relatedFiles : List MediaFile) (marked : Finset String)
    (h : ∀ m ∈ relatedFiles, m.filename ∈ marked) : unmarked relatedFiles marked = [] := by
  induction relatedFiles with
  | nil => rfl
  | cons x rest ih =>
    rw [unmarked, if_pos (h x (by simp))]
    exact ih (fun m hm => h m (by simp [hm]))

/-- Of a list made of a main file and one sibling, the sibling alone is
unmarked after the main file. -/
theorem unmarked_pair (relatedFiles : List MediaFile) (main sib : MediaFile)
    (hrel : ∀ m ∈ relatedFiles, m = main ∨ m = sib) (hsib : sib ∈ relatedFiles)
    (hne : sib.filename ≠ main.filename) :
    unmarked relatedFiles {main.filename} = [sib] := by
  induction relatedFiles with
  | nil => simp at hsib
  | cons x rest ih =>
    rcases hrel x (by simp) with rfl | rfl
    · rw [unmarked, if_pos (by simp)]
      refine ih (fun m hm => hrel m (by simp [hm])) ?_
      rcases List.mem_cons.mp hsib with h | h
      · exact absurd (congrArg MediaFile.filename h) hne
      · exact h
    · rw [unmarked, if_neg (by simpa using hne)]
      congr 1
      apply unmarked_all_marked
      intro m hm
      rcases hrel m (by simp [hm]) with rfl | rfl <;> simp

theorem findFile_none_iff (db : DB) (fileHash name : String) :
    findFile db fileHash name = none ↔
      ∀ f ∈ db.files, f.FileHash ≠ fileHash ∧ f.FileName ≠ name := by
  unfold findFile
  rw [List.find?_eq_none]
  simp

theorem findPrimaryFile_none_of (db : DB) (photoID : Nat)
    (h : ∀ f ∈ db.files, f.PhotoID ≠ photoID) : findPrimaryFile db photoID = none := by
  unfold findPrimaryFile
  rw [List.find?_eq_none]
  intro f hf
  simp [h f hf]

/-- `IndexMediaFile` on a media file whose file query finds nothing appends
one File row. -/
theorem IndexMediaFile_added (env : Env) (i : Indexer) (s : State) (m : MediaFile)
    (hf : findFile s.db m.GetHash (m.GetRelativeFilename i.originalsPath) = none) :
    (IndexMediaFile env i s m).2.db.files =
      s.db.files ++ [{ fillFile File.zero (IndexMediaFile.photo env i s m).ID
          (decidePrimary s.db (IndexMediaFile.photo env i s m).ID m
            (m.GetRelativeFilename i.originalsPath) m.GetHash)
          m (m.GetRelativeFilename i.originalsPath) m.GetHash with
        ID := nextID (s.db.files.map File.ID) }] := by
  have hf' : findFile (reconcilePhoto env i s.db (env.Now s.tick) m).2 m.GetHash
      (m.GetRelativeFilename i.originalsPath) = none := by
    rw [findFile_congr _ _ (reconcilePhoto_files _ _ _ _ _)]; exact hf
  have hd : ∀ pid, decidePrimary (reconcilePhoto env i s.db (env.Now s.tick) m).2 pid m
      (m.GetRelativeFilename i.originalsPath) m.GetHash =
      decidePrimary s.db pid m (m.GetRelativeFilename i.originalsPath) m.GetHash := by
    intro pid
    unfold decidePrimary findPrimaryFile
    rw [reconcilePhoto_files]
  rw [(IndexMediaFile_files _ _ _ _).1, reconcileFile_none _ _ _ _ hf', hd]
  simp only [reconcilePhoto_files, IndexMediaFile.photo]

/-- The photo table after `IndexMediaFile` found the Photo: as before, or
with the found row refreshed under the same key and canonical name. -/
theorem IndexMediaFile_photos_of_found (env : Env) (i : Indexer) (s : State) (m : MediaFile)
    (photo : Photo)
    (hp : s.db.photos.find?
      (fun r => r.PhotoCanonicalName == m.GetCanonicalNameFromFile) = some photo) :
    (IndexMediaFile.photo env i s m).ID = photo.ID ∧
    (IndexMediaFile.photo env i s m).PhotoCanonicalName = photo.PhotoCanonicalName ∧
    ((IndexMediaFile env i s m).2.db.photos = s.db.photos ∨
      (IndexMediaFile env i s m).2.db.photos =
        s.db.photos.map (fun r => if r.ID = photo.ID then IndexMediaFile.photo env i s m
          else r)) := by
  unfold IndexMediaFile.photo
  rw [IndexMediaFile_photos]
  cases hs : minutesGt10 ((env.Now s.tick).Sub photo.UpdatedAt) with
  | false =>
    rw [reconcilePhoto_fresh _ _ _ _ _ photo hp hs]
    exact ⟨rfl, rfl, Or.inl rfl⟩
  | true =>
    rw [reconcilePhoto_stale _ _ _ _ _ photo hp hs]
    obtain ⟨h1, h2, -, -, -, -, h7, -⟩ := refreshPhoto_spec s.db (env.Now s.tick) m photo
    exact ⟨h2, h7, Or.inr h1⟩
theorem decidePrimary_of_not_jpg (db : DB) (photoID : Nat) (m : MediaFile) (name hash : String)
    (h : m.GetType ≠ "jpg") : decidePrimary db photoID m name hash = false := by
  rw [Bool.eq_false_iff]
  intro ht
  exact h ((decidePrimary_iff _ _ _ _ _).mp ht).1

theorem decidePrimary_of_no_primary (db : DB) (photoID : Nat) (m : MediaFile)
    (name hash : String) (h : m.GetType = "jpg") (hno : ∀ f ∈ db.files, f.PhotoID ≠ photoID) :
    decidePrimary db photoID m name hash = true :=
  (decidePrimary_iff _ _ _ _ _).mpr ⟨h, Or.inl fun f hf hh => hno f hf hh.2.2⟩

theorem GetRelativeFilename_ne (i : Indexer) (a b : MediaFile)
    (h : a.GetRelativeFilename i.originalsPath ≠ b.GetRelativeFilename i.originalsPath) :
    a.filename ≠ b.filename := by
  intro he
  apply h
  unfold MediaFile.GetRelativeFilename
  rw [he]

/-- Indexing a JPEG and then its RAW sibling into a store that knows neither:
one Photo row and two File rows are appended. -/
theorem indexEach_jpeg_raw (env : Env) (i : Indexer) (s : State) (jpeg raw : MediaFile)
    (hjt : jpeg.GetType = "jpg") (hrt : raw.GetType ≠ "jpg")
    (hcanon : raw.GetCanonicalNameFromFile = jpeg.GetCanonicalNameFromFile)
    (hhash : raw.GetHash ≠ jpeg.GetHash)
    (hpath : raw.GetRelativeFilename i.originalsPath ≠
      jpeg.GetRelativeFilename i.originalsPath)
    (hnophoto : ∀ p ∈ s.db.photos, p.PhotoCanonicalName ≠ jpeg.GetCanonicalNameFromFile)
    (hnofile : ∀ f ∈ s.db.files,
      f.FileHash ≠ jpeg.GetHash ∧ f.FileHash ≠ raw.GetHash ∧
      f.FileName ≠ jpeg.GetRelativeFilename i.originalsPath ∧
      f.FileName ≠ raw.GetRelativeFilename i.originalsPath)
    (howned : ∀ f ∈ s.db.files, ∃ p ∈ s.db.photos, p.ID = f.PhotoID) :
    ∃ photo fj fr,
      (indexEach env i s [jpeg, raw]).db.photos = s.db.photos ++ [photo] ∧
      (indexEach env i s [jpeg, raw]).db.files = s.db.files ++ [fj, fr] ∧
      photo.ID = nextID (s.db.photos.map Photo.ID) ∧
      photo.PhotoCanonicalName = jpeg.GetCanonicalNameFromFile ∧
      fj.PhotoID = photo.ID ∧ fr.PhotoID = photo.ID ∧
      fj.FileName = jpeg.GetRelativeFilename i.originalsPath ∧ fj.FileHash = jpeg.GetHash ∧
      fj.FileType = "jpg" ∧ fj.FilePrimary = true ∧
      fr.FileName = raw.GetRelativeFilename i.originalsPath ∧ fr.FileHash = raw.GetHash ∧
      fr.FileType = raw.GetType ∧ fr.FilePrimary = false := by
  -- the JPEG
  have hnew : s.db.photos.find?
      (fun r => r.PhotoCanonicalName == jpeg.GetCanonicalNameFromFile) = none := by
    rw [List.find?_eq_none]
    intro p hp
    simpa using hnophoto p hp
  obtain ⟨hph1, hfind1⟩ := IndexMediaFile_new_photo env i s jpeg hnew
  obtain ⟨-, -, hid, hcn⟩ := createPhoto_photos env i s.db (env.Now s.tick) jpeg
    jpeg.GetCanonicalNameFromFile Photo.zero
  have hP : IndexMediaFile.photo env i s jpeg =
      (createPhoto env i s.db (env.Now s.tick) jpeg jpeg.GetCanonicalNameFromFile
        Photo.zero).1 := by
    unfold IndexMediaFile.photo
    rw [reconcilePhoto_new _ _ _ _ _ hnew]
  have hfnone1 : findFile s.db jpeg.GetHash (jpeg.GetRelativeFilename i.originalsPath) =
      none := by
    rw [findFile_none_iff]
    exact fun f hf => ⟨(hnofile f hf).1, (hnofile f hf).2.2.1⟩
  have hfl1 := IndexMediaFile_added env i s jpeg hfnone1
  rw [hP] at hfl1
  generalize hPdef : (createPhoto env i s.db (env.Now s.tick) jpeg jpeg.GetCanonicalNameFromFile
    Photo.zero).1 = P at hph1 hfind1 hid hcn hfl1
  have hfreshP : ∀ p ∈ s.db.photos, p.ID ≠ P.ID := by
    intro p hp
    have := lt_nextID _ p.ID (List.mem_map_of_mem Photo.ID hp)
    omega
  have hnoowned : ∀ f ∈ s.db.files, f.PhotoID ≠ P.ID := by
    intro f hf
    obtain ⟨p, hp, he⟩ := howned f hf
    rw [← he]
    exact hfreshP p hp
  rw [decidePrimary_of_no_primary _ _ _ _ _ hjt hnoowned] at hfl1
  obtain ⟨-, fj2, fj3, fj4, fj5, fj6⟩ := fillFile_fields File.zero P.ID true jpeg
    (jpeg.GetRelativeFilename i.originalsPath) jpeg.GetHash
  generalize hfjdef : ({ fillFile File.zero P.ID true jpeg
      (jpeg.GetRelativeFilename i.originalsPath) jpeg.GetHash with
      ID := nextID (s.db.files.map File.ID) } : File) = fj at hfl1
  have gj2 : fj.PhotoID = P.ID := by rw [← hfjdef]; exact fj2
  have gj3 : fj.FilePrimary = true := by rw [← hfjdef]; exact fj3
  have gj4 : fj.FileName = jpeg.GetRelativeFilename i.originalsPath := by
    rw [← hfjdef]; exact fj4
  have gj5 : fj.FileHash = jpeg.GetHash := by rw [← hfjdef]; exact fj5
  have gj6 : fj.FileType = "jpg" := by rw [← hfjdef, ← hjt]; exact fj6
  -- the RAW sibling
  generalize hs1 : (IndexMediaFile env i s jpeg).2 = s1 at hph1 hfind1 hfl1
  have hfind2 : s1.db.photos.find?
      (fun r => r.PhotoCanonicalName == raw.GetCanonicalNameFromFile) = some P := by
    rw [hcanon]; exact hfind1
  obtain ⟨hQid, hQcn, hph2⟩ := IndexMediaFile_photos_of_found env i s1 raw P hfind2
  have hfnone2 : findFile s1.db raw.GetHash (raw.GetRelativeFilename i.originalsPath) =
      none := by
    rw [findFile_none_iff, hfl1]
    intro f hf
    rcases List.mem_append.mp hf with h | h
    · exact ⟨(hnofile f h).2.1, (hnofile f h).2.2.2⟩
    · have : f = fj := by simpa using h
      subst this
      rw [gj4, gj5]
      exact ⟨fun h => hhash h.symm, fun h => hpath h.symm⟩
  have hfl2 := IndexMediaFile_added env i s1 raw hfnone2
  rw [decidePrimary_of_not_jpg _ _ _ _ _ hrt, hQid] at hfl2
  obtain ⟨-, fr2, fr3, fr4, fr5, fr6⟩ := fillFile_fields File.zero P.ID false raw
    (raw.GetRelativeFilename i.originalsPath) raw.GetHash
  generalize hfrdef : ({ fillFile File.zero P.ID false raw
      (raw.GetRelativeFilename i.originalsPath) raw.GetHash with
      ID := nextID (s1.db.files.map File.ID) } : File) = fr at hfl2
  have gr2 : fr.PhotoID = P.ID := by rw [← hfrdef]; exact fr2
  have gr3 : fr.FilePrimary = false := by rw [← hfrdef]; exact fr3
  have gr4 : fr.FileName = raw.GetRelativeFilename i.originalsPath := by
    rw [← hfrdef]; exact fr4
  have gr5 : fr.FileHash = raw.GetHash := by rw [← hfrdef]; exact fr5
  have gr6 : fr.FileType = raw.GetType := by rw [← hfrdef]; exact fr6
  have hrun : indexEach env i s [jpeg, raw] = (IndexMediaFile env i s1 raw).2 := by
    rw [indexEach_cons, hs1]; rfl
  have hfiles : (indexEach env i s [jpeg, raw]).db.files = s.db.files ++ [fj, fr] := by
    rw [hrun, hfl2, hfl1]; simp
  rcases hph2 with hph2 | hph2
  · refine ⟨P, fj, fr, ?_, hfiles, hid, hcn, gj2, gr2, gj4, gj5, gj6, gj3, gr4, gr5, gr6, gr3⟩
    rw [hrun, hph2, hph1]
  · refine ⟨IndexMediaFile.photo env i s1 raw, fj, fr, ?_, hfiles, by rw [hQid, hid],
      by rw [hQcn, hcn], by rw [hQid, gj2], by rw [hQid, gr2], gj4, gj5, gj6, gj3, gr4, gr5,
      gr6, gr3⟩
    rw [hrun, hph2, hph1, List.map_append]
    congr 1
    · conv_rhs => rw [← List.map_id s.db.photos]
      apply List.map_congr_left
      intro p hp
      simp [hfreshP p hp]
    · simp

/-! ## Theorems: groups end to end, primary exclusivity and re-indexing -/

/-- C7. End-to-end grouping: for a group whose main file is a JPEG and whose
related files are the JPEG and one RAW sibling with the same canonical name,
another content hash and another relative path, `IndexRelated` on a store
with no Photo of that name, no File with those hashes or paths, and every
File row owned by a Photo row, leaves exactly one Photo with that name and
exactly two File rows owned by it: the JPEG row with the primary flag and the
RAW row without it. -/
theorem end_to_end_grouping (env : Env) (i : Indexer) (s : State)
    (mediaFile jpeg raw : MediaFile) (relatedFiles : List MediaFile)
    (hgroup : env.GetRelatedFiles mediaFile = some (relatedFiles, jpeg))
    (hrel : ∀ m ∈ relatedFiles, m = jpeg ∨ m = raw) (hsib : raw ∈ relatedFiles)
    (hjt : jpeg.GetType = "jpg") (hrt : raw.GetType ≠ "jpg")
    (hcanon : raw.GetCanonicalNameFromFile = jpeg.GetCanonicalNameFromFile)
    (hhash : raw.GetHash ≠ jpeg.GetHash)
    (hpath : raw.GetRelativeFilename i.originalsPath ≠
      jpeg.GetRelativeFilename i.originalsPath)
    (hnophoto : ∀ p ∈ s.db.photos, p.PhotoCanonicalName ≠ jpeg.GetCanonicalNameFromFile)
    (hnofile : ∀ f ∈ s.db.files,
      f.FileHash ≠ jpeg.GetHash ∧ f.FileHash ≠ raw.GetHash ∧
      f.FileName ≠ jpeg.GetRelativeFilename i.originalsPath ∧
      f.FileName ≠ raw.GetRelativeFilename i.originalsPath)
    (howned : ∀ f ∈ s.db.files, ∃ p ∈ s.db.photos, p.ID = f.PhotoID) :
    ∃ photo fj fr,
      (IndexRelated env i s mediaFile).2.db.photos.filter
        (fun p => p.PhotoCanonicalName == jpeg.GetCanonicalNameFromFile) = [photo] ∧
      (IndexRelated env i s mediaFile).2.db.files.filter
        (fun f => f.PhotoID == photo.ID) = [fj, fr] ∧
      fj.FileName = jpeg.GetRelativeFilename i.originalsPath ∧ fj.FileHash = jpeg.GetHash ∧
      fj.FileType = "jpg" ∧ fj.FilePrimary = true ∧
      fr.FileName = raw.GetRelativeFilename i.originalsPath ∧ fr.FileHash = raw.GetHash ∧
      fr.FileType = raw.GetType ∧ fr.FilePrimary = false := by
  obtain ⟨photo, fj, fr, hph, hfl, hid, hcn, hj, hr, r1, r2, r3, r4, r5, r6, r7, r8⟩ :=
    indexEach_jpeg_raw env i s jpeg raw hjt hrt hcanon hhash hpath hnophoto hnofile howned
  have hrun : (IndexRelated env i s mediaFile).2 = indexEach env i s [jpeg, raw] := by
    rw [IndexRelated_eq]
    simp only [groupOrder, hgroup]
    rw [unmarked_pair relatedFiles jpeg raw hrel hsib (GetRelativeFilename_ne i _ _ hpath)]
  refine ⟨photo, fj, fr, ?_, ?_, r1, r2, r3, r4, r5, r6, r7, r8⟩
  · rw [hrun, hph, List.filter_append]
    have h1 : s.db.photos.filter
        (fun p => p.PhotoCanonicalName == jpeg.GetCanonicalNameFromFile) = [] := by
      rw [List.filter_eq_nil_iff]
      intro p hp
      simpa using hnophoto p hp
    rw [h1]
    simp [hcn]
  · rw [hrun, hfl, List.filter_append]
    have h1 : s.db.files.filter (fun f => f.PhotoID == photo.ID) = [] := by
      rw [List.filter_eq_nil_iff]
      intro f hf
      obtain ⟨p, hp, he⟩ := howned f hf
      have := lt_nextID _ p.ID (List.mem_map_of_mem Photo.ID hp)
      simp only [beq_iff_eq]
      omega
    rw [h1]
    simp [hj, hr]

/-- C7 on the tree `/o` with `IMG_001.jpg` and `IMG_001.raw`, from the empty
store. -/
theorem end_to_end_grouping_witness :
    ∃ photo fj fr,
      (IndexRelated treeEnv plainIndexer ⟨DB.empty, 0⟩ catRaw).2.db.photos.filter
        (fun p => p.PhotoCanonicalName == catFile.GetCanonicalNameFromFile) = [photo] ∧
      (IndexRelated treeEnv plainIndexer ⟨DB.empty, 0⟩ catRaw).2.db.files.filter
        (fun f => f.PhotoID == photo.ID) = [fj, fr] ∧
      fj.FileName = catFile.GetRelativeFilename plainIndexer.originalsPath ∧
      fj.FileHash = catFile.GetHash ∧
      fj.FileType = "jpg" ∧ fj.FilePrimary = true ∧
      fr.FileName = catRaw.GetRelativeFilename plainIndexer.originalsPath ∧
      fr.FileHash = catRaw.GetHash ∧
      fr.FileType = catRaw.GetType ∧ fr.FilePrimary = false :=
  end_to_end_grouping treeEnv plainIndexer ⟨DB.empty, 0⟩ catRaw catFile catRaw [catFile, catRaw]
    (by decide) (by decide) (by decide) (by decide) (by decide) (by decide) (by decide)
    (by decide) (by decide) (by decide) (by decide)

/-- C1. From the empty store, `b.jpg` (photo `b`, hash `h2`) and `a.jpg` (photo
`a`, hash `h1`) are indexed, which leaves one primary JPEG per photo; then
`a.jpg` is indexed again with the content hash `h2`.  It matches the primary
file of photo `a` by path, so it is flagged primary, and the file query
returns the older row of `b.jpg`, which matches by hash; that row is moved to
photo `a`, which now owns two JPEG rows with the primary flag. -/
theorem primary_exclusivity_broken :
    PrimaryExclusive (indexEach asciiEnv plainIndexer ⟨DB.empty, 0⟩ [bFile, aFile]).db ∧
    ¬ PrimaryExclusive
      (IndexMediaFile asciiEnv plainIndexer
        (indexEach asciiEnv plainIndexer ⟨DB.empty, 0⟩ [bFile, aFile]) aFileReplaced).2.db ∧
    (IndexMediaFile asciiEnv plainIndexer
        (indexEach asciiEnv plainIndexer ⟨DB.empty, 0⟩ [bFile, aFile]) aFileReplaced).2.db.files.map
      (fun f => (f.ID, f.PhotoID, f.FileName, f.FileHash, f.FileType, f.FilePrimary)) =
      [(1, 2, "a.jpg", "h2", "jpg", true), (2, 2, "a.jpg", "h1", "jpg", true)] := by
  decide

/-- C2. Re-indexing is idempotent on row counts: reconciling the same
observation a second time with `IndexMediaFile` reports `Updated` and adds no
Photo row and no File row; and a second run of `IndexAll` over an unchanged
tree (every path keeps its content hash), from a store whose Photo keys are
distinct, leaves the number of Photo rows and of File rows as the first run
left them. -/
theorem reindex_idempotent (env : Env) (i : Indexer) (s : State) :
    (∀ mediaFile,
      (IndexMediaFile env i (IndexMediaFile env i s mediaFile).2 mediaFile).1 = "Updated" ∧
      (IndexMediaFile env i (IndexMediaFile env i s mediaFile).2 mediaFile).2.db.photos.length =
        (IndexMediaFile env i s mediaFile).2.db.photos.length ∧
      (IndexMediaFile env i (IndexMediaFile env i s mediaFile).2 mediaFile).2.db.files.length =
        (IndexMediaFile env i s mediaFile).2.db.files.length) ∧
    (OneHashPerPath i (walkOrder env i) → (s.db.photos.map Photo.ID).Nodup →
      (IndexAll env i (IndexAll env i s).2).2.db.photos.length =
        (IndexAll env i s).2.db.photos.length ∧
      (IndexAll env i (IndexAll env i s).2).2.db.files.length =
        (IndexAll env i s).2.db.files.length) :=
  ⟨fun mediaFile => IndexMediaFile_twice env i s mediaFile,
    fun hone hnd => IndexAll_second_run env i s hone hnd⟩

/-- C2 on the tree `/o`: both runs visit `IMG_001.jpg` and `IMG_001.raw`; the
first run, from the empty store, creates one Photo row and two File rows, and
the second run creates none. -/
theorem reindex_idempotent_witness :
    walkOrder treeEnv plainIndexer = [catFile, catRaw] ∧
    (IndexAll treeEnv plainIndexer ⟨DB.empty, 0⟩).2.db.photos.length = 1 ∧
    (IndexAll treeEnv plainIndexer ⟨DB.empty, 0⟩).2.db.files.length = 2 ∧
    (IndexAll treeEnv plainIndexer (IndexAll treeEnv plainIndexer ⟨DB.empty, 0⟩).2).2.db.photos.length =
      (IndexAll treeEnv plainIndexer ⟨DB.empty, 0⟩).2.db.photos.length ∧
    (IndexAll treeEnv plainIndexer (IndexAll treeEnv plainIndexer ⟨DB.empty, 0⟩).2).2.db.files.length =
      (IndexAll treeEnv plainIndexer ⟨DB.empty, 0⟩).2.db.files.length :=
  ⟨by decide, by decide, by decide,
    (reindex_idempotent treeEnv plainIndexer ⟨DB.empty, 0⟩).2 (by decide) (by decide)⟩

/-- C10 on the tree `/o`: the group of `IMG_001.raw` is reconciled as the JPEG
and then the RAW file. -/
theorem exactly_once_per_group_witness :
    unmarked [catFile, catRaw] {catFile.filename} = [catRaw] ∧
    (IndexRelated treeEnv plainIndexer ⟨DB.empty, 0⟩ catRaw).2 =
      indexEach treeEnv plainIndexer
        (IndexMediaFile treeEnv plainIndexer ⟨DB.empty, 0⟩ catFile).2
        (unmarked [catFile, catRaw] {catFile.filename}) :=
  ⟨by decide,
    ((exactly_once_per_group treeEnv plainIndexer ⟨DB.empty, 0⟩ catRaw).1
      [catFile, catRaw] catFile (by decide)).1⟩

/-- C8 on the ASCII environment: `Paris` is appended to the empty list as
`paris`, and appending `paris` to the result changes nothing. -/
theorem appendTag_contract_witness :
    (∃ t, (appendTag asciiEnv DB.empty [] "Paris").1 = [] ++ [t] ∧
      t.TagLabel = asciiEnv.ToLower "Paris") ∧
    appendTag asciiEnv (appendTag asciiEnv DB.empty [] "Paris").2
      (appendTag asciiEnv DB.empty [] "Paris").1 "Paris" =
      appendTag asciiEnv DB.empty [] "Paris" :=
  ⟨(appendTag_contract asciiEnv DB.empty [] "Paris").2.1 (by decide),
    (appendTag_contract asciiEnv DB.empty [] "Paris").2.2⟩

end Photoprism
